import Mathlib

/-!
Shallow embedding of the Duckline timeline layout engine
(src/components/TimelinePreview.tsx, src/types.ts / the date utilities)
and proofs about the layout claims.

Modelling conventions:
* JavaScript numbers (pixels, millisecond timestamps) are modelled as
  exact rationals.
* A date string is modelled as an option value: some t stands for a string
  that new Date(...) parses to the instant t (milliseconds since epoch),
  none stands for an unparseable string (isNaN(d.getTime())).
* new Date() (the current instant) is an explicit parameter called now.
* JavaScript Date calendar fields (getFullYear/getMonth/getDate/...) are
  modelled in UTC via the standard civil-from-days algorithm.
* Array.prototype.sort with a numeric comparator is a stable ascending
  sort; it is modelled by a stable insertion sort on a numeric key.
* Mutation of layout entry objects is modelled by explicit state passing:
  each loop that mutates an entry becomes a fold producing the new entry.
-/

namespace Duckline

/-- Stable insertion of one element into a list that is kept sorted by a
rational key; an incoming element goes before the first strictly larger or
equally keyed later element, matching a stable ascending sort. -/
def insSorted (key : α → ℚ) (x : α) : List α → List α
  | [] => [x]
  | y :: ys => if key x ≤ key y then x :: y :: ys else y :: insSorted key x ys

/-- Stable ascending sort by a rational key (model of Array.sort with the
comparator (a, b) => key(a) - key(b)). -/
def sortByKey (key : α → ℚ) (l : List α) : List α :=
  l.foldr (insSorted key) []

/-- src/types.ts: TimelineItem. Events and notes carry one date string,
periods carry two. The id and label are plain strings. -/
inductive TimelineItem where
  | event (id : String) (label : String) (date : Option ℚ)
  | period (id : String) (label : String) (startDate : Option ℚ) (endDate : Option ℚ)
  | note (id : String) (label : String) (date : Option ℚ)
deriving DecidableEq

def TimelineItem.idOf : TimelineItem → String
  | .event i _ _ => i
  | .period i _ _ _ => i
  | .note i _ _ => i

/-- src/types.ts parseDate: new Date(dateStr), falling back to new Date()
(the current instant) when the string does not parse. -/
def parseDate (now : ℚ) : Option ℚ → ℚ
  | some t => t
  | none => now

/-- TimelinePreview.tsx estimateTextWidth: character count times font size
times a fixed per-character ratio (0.62 bold, 0.52 regular). -/
def estimateTextWidth (text : String) (fontSize : ℚ) (bold : Bool) : ℚ :=
  (text.length : ℚ) * fontSize * (if bold then 62 / 100 else 52 / 100)

/-- TimelinePreview.tsx MIN_PERIOD_WIDTH. -/
def minPeriodWidth : ℚ := 60

/-- Day number (days since the Unix epoch) of an instant, UTC. -/
def daysFromMs (t : ℚ) : ℤ := ⌊t / 86400000⌋

/-- Milliseconds elapsed since UTC midnight of the instant's day. -/
def msOfDay (t : ℚ) : ℚ := t - (daysFromMs t : ℚ) * 86400000

/-- Civil calendar date (year, month 1..12, day 1..31) from a day number,
UTC; the standard civil-from-days algorithm. -/
def civilFromDays (z0 : ℤ) : ℤ × ℤ × ℤ :=
  let z := z0 + 719468
  let era := z.fdiv 146097
  let doe := z - era * 146097
  let yoe := (doe - doe.ediv 1460 + doe.ediv 36524 - doe.ediv 146096).ediv 365
  let doy := doe - (365 * yoe + yoe.ediv 4 - yoe.ediv 100)
  let mp := (5 * doy + 2).ediv 153
  let d := doy - (153 * mp + 2).ediv 5 + 1
  let m := if mp < 10 then mp + 3 else mp - 9
  let y := yoe + era * 400
  (if m ≤ 2 then y + 1 else y, m, d)

def civilOf (t : ℚ) : ℤ × ℤ × ℤ := civilFromDays (daysFromMs t)

def getFullYear (t : ℚ) : ℤ := (civilOf t).1

def monthNames : List String :=
  [("Jan"), ("Feb"), ("Mar"), ("Apr"), ("May"), ("Jun"),
   ("Jul"), ("Aug"), ("Sep"), ("Oct"), ("Nov"), ("Dec")]

def monthShort (m : ℤ) : String := monthNames.getD (m - 1).toNat ("???")

def weekdayNames : List String :=
  [("Sunday"), ("Monday"), ("Tuesday"), ("Wednesday"),
   ("Thursday"), ("Friday"), ("Saturday")]

/-- Long weekday name of a day number; day 0 (1970-01-01) is a Thursday. -/
def weekdayLong (z : ℤ) : String := weekdayNames.getD ((z + 4).emod 7).toNat ("???")

/-- src/types.ts formatDate: toLocaleDateString en-US with short month,
numeric day and numeric year, e.g. Jun 7, 2025. -/
def formatDate (t : ℚ) : String :=
  monthShort (civilOf t).2.1 ++ (" ") ++ toString (civilOf t).2.2 ++ (", ")
    ++ toString (civilOf t).1

def pad2 (n : ℤ) : String := if n < 10 then ("0") ++ toString n else toString n

/-- toLocaleTimeString en-US with numeric hour and 2-digit minute,
e.g. 6:00 AM. -/
def formatTimeOfDay (t : ℚ) : String :=
  let h : ℤ := ⌊msOfDay t / 3600000⌋
  let mi : ℤ := (⌊msOfDay t / 60000⌋).emod 60
  let h12 := if h.emod 12 = 0 then (12 : ℤ) else h.emod 12
  toString h12 ++ (":") ++ pad2 mi ++ (if h < 12 then (" AM") else (" PM"))

/-- The dates getMinMaxDates collects for one item. The function tests
only item.type === 'event'; every other item falls into the else branch
that reads item.startDate and item.endDate. Those fields are absent
(undefined) on a note, so new Date(undefined) is invalid and parseDate
substitutes the current instant for both. -/
def itemMinMaxDates (now : ℚ) : TimelineItem → List ℚ
  | .event _ _ d => [parseDate now d]
  | .period _ _ sd ed => [parseDate now sd, parseDate now ed]
  | .note _ _ _ => [parseDate now none, parseDate now none]

/-- src/types.ts getMinMaxDates: (now, now) on an empty list, otherwise
min/max over the collected dates, padded by 10 percent of the span, or by
30 days when that padding is zero (range * 0.1 || 86400000 * 30). -/
def getMinMaxDates (now : ℚ) (items : List TimelineItem) : ℚ × ℚ :=
  if items = [] then (now, now)
  else
    let dates := items.foldr (fun i acc => itemMinMaxDates now i ++ acc) []
    let mn := dates.foldl min (dates.headD 0)
    let mx := dates.foldl max (dates.headD 0)
    let range := mx - mn
    let padding := if range * (1 / 10) = 0 then 86400000 * 30 else range * (1 / 10)
    (mn - padding, mx + padding)

inductive SpanMode where
  | time
  | monthday
  | full
deriving DecidableEq

structure DateSpan where
  mode : SpanMode
  label : String
deriving DecidableEq

/-- The dates detectDateSpan (and buildCompressedScale) collect for one
item: event/note date, or period start and end. -/
def itemDates (now : ℚ) : TimelineItem → List ℚ
  | .event _ _ d => [parseDate now d]
  | .note _ _ d => [parseDate now d]
  | .period _ _ sd ed => [parseDate now sd, parseDate now ed]

def datesOf (now : ℚ) (items : List TimelineItem) : List ℚ :=
  items.foldr (fun i acc => itemDates now i ++ acc) []

/-- TimelinePreview.tsx detectDateSpan: time mode when every collected
date shares the calendar day of the first one (label: long weekday plus
the full date), monthday mode when every date shares the first one's year
(label: the year), otherwise full mode with an empty label. -/
def detectDateSpan (now : ℚ) (items : List TimelineItem) : DateSpan :=
  let dates := datesOf now items
  if dates = [] then ⟨SpanMode.full, ("")⟩
  else
    let d0 := dates.headD 0
    if dates.all (fun d => decide (civilOf d = civilOf d0)) then
      ⟨SpanMode.time, weekdayLong (daysFromMs d0) ++ (", ") ++ formatDate d0⟩
    else if dates.all (fun d => decide (getFullYear d = getFullYear d0)) then
      ⟨SpanMode.monthday, toString (getFullYear d0)⟩
    else ⟨SpanMode.full, ("")⟩

/-- TimelinePreview.tsx formatCompact. -/
def formatCompact (t : ℚ) : SpanMode → String
  | SpanMode.time => formatTimeOfDay t
  | SpanMode.monthday => monthShort (civilOf t).2.1 ++ (" ") ++ toString (civilOf t).2.2
  | SpanMode.full => formatDate t

/-! ## Time scales -/

/-- The timestamps buildCompressedScale collects: the domain min and max
first, then every item's instants in item order. -/
def scaleTimestamps (now minDate maxDate : ℚ) (items : List TimelineItem) : List ℚ :=
  [minDate, maxDate] ++ datesOf now items

/-- The distinct collected timestamps in ascending order, the model of
[...new Set(timestamps)].sort((a, b) => a - b). -/
def uniqueTs (now minDate maxDate : ℚ) (items : List TimelineItem) : List ℚ :=
  (sortByKey id (scaleTimestamps now minDate maxDate items)).dedup

/-- Consecutive gaps of a timestamp list. -/
def gapsOf (u : List ℚ) : List ℚ := (u.zip u.tail).map fun p => p.2 - p.1

/-- threshold = sortedGaps[floor(n / 2)] * GAP_COMPRESS_RATIO, the
upper-median gap times 3. -/
def thresholdOf (gaps : List ℚ) : ℚ :=
  let sortedGaps := sortByKey id gaps
  sortedGaps.getD (sortedGaps.length / 2) 0 * 3

/-- The contribution of each gap to the cumulative compressed distance:
gaps above a positive threshold contribute the threshold, all others
contribute themselves. -/
def increments (threshold : ℚ) (gaps : List ℚ) : List ℚ :=
  gaps.map fun g => if 0 < threshold ∧ threshold < g then threshold else g

/-- Running sums: the model of the cum variable that starts at c and is
pushed onto the compressed array after adding each increment. -/
def sumsFrom (c : ℚ) : List ℚ → List ℚ
  | [] => [c]
  | g :: gs => c :: sumsFrom (c + g) gs

/-- The compressed cumulative-distance array: compressed[0] = 0 and
compressed[i+1] = compressed[i] + increment of gap i. -/
def compressedOf (threshold : ℚ) (gaps : List ℚ) : List ℚ :=
  sumsFrom 0 (increments threshold gaps)

/-- The segment-finding loop of the compressed scale: starting at i = 0
with seg = 0, return the first i with unique[i] <= t <= unique[i+1];
otherwise remember the last i with unique[i] < t and fall out of the
loop with it. The fuel argument bounds the iteration count and is always
called with at least the list length. -/
def segGo (u : List ℚ) (t : ℚ) : ℕ → ℕ → ℕ → ℕ
  | 0, _, seg => seg
  | fuel + 1, i, seg =>
    if i + 1 < u.length then
      if u.getD i 0 ≤ t ∧ t ≤ u.getD (i + 1) 0 then i
      else segGo u t fuel (i + 1) (if u.getD i 0 < t then i else seg)
    else seg

def segLoop (u : List ℚ) (t : ℚ) : ℕ := segGo u t u.length 0 0

/-- The piecewise-linear compressed scale closure. -/
def compressedScaleAt (u compressed : List ℚ) (cum rangeStart rangeEnd t : ℚ) : ℚ :=
  if t ≤ u.getD 0 0 then rangeStart
  else if u.getD (u.length - 1) 0 ≤ t then rangeEnd
  else
    let seg := segLoop u t
    let frac :=
      if u.getD (seg + 1) 0 = u.getD seg 0 then 0
      else (t - u.getD seg 0) / (u.getD (seg + 1) 0 - u.getD seg 0)
    let compVal :=
      compressed.getD seg 0 + frac * (compressed.getD (seg + 1) 0 - compressed.getD seg 0)
    rangeStart + compVal / cum * (rangeEnd - rangeStart)

/-- TimelinePreview.tsx buildCompressedScale, as the pixel position of one
instant: constant rangeStart on fewer than two distinct timestamps,
constant range midpoint on zero cumulative distance, otherwise the
piecewise-linear compressed map. -/
def buildCompressedScale (now : ℚ) (items : List TimelineItem)
    (minDate maxDate rangeStart rangeEnd t : ℚ) : ℚ :=
  let u := uniqueTs now minDate maxDate items
  if u.length < 2 then rangeStart
  else
    let gaps := gapsOf u
    let threshold := thresholdOf gaps
    let compressed := compressedOf threshold gaps
    let cum := compressed.getLastD 0
    if cum = 0 then (rangeStart + rangeEnd) / 2
    else compressedScaleAt u compressed cum rangeStart rangeEnd t

/-- d3.scaleTime().domain([min, max]).range([rangeStart, rangeEnd]): the
affine map on timestamps. -/
def linearScale (minD maxD rangeStart rangeEnd t : ℚ) : ℚ :=
  rangeStart + (t - minD) / (maxD - minD) * (rangeEnd - rangeStart)

/-! ## Layout configuration and pipeline -/

/-- The layout-relevant props of TimelinePreview. -/
structure Config where
  contentScale : ℚ
  exportMode : Bool
  totalSlices : ℕ
  canvasWidth : ℚ
  canvasHeight : ℚ
  compressGaps : Bool
  avoidSplit : Bool
  compactDates : Bool
deriving DecidableEq

/-- actualWidth = exportMode ? canvasWidth * totalSlices : canvasWidth. -/
def actualWidth (cfg : Config) : ℚ :=
  if cfg.exportMode then cfg.canvasWidth * (cfg.totalSlices : ℚ) else cfg.canvasWidth

/-- The scale in effect: gap-compressed when compressGaps is on and there
are at least two items, linear otherwise; range is 10 to 90 percent of
the actual (possibly multi-slide) width. -/
def xScaleOf (now : ℚ) (cfg : Config) (items : List TimelineItem) (t : ℚ) : ℚ :=
  let mm := getMinMaxDates now items
  let rs := actualWidth cfg * (1 / 10)
  let re := actualWidth cfg * (9 / 10)
  if cfg.compressGaps = true ∧ 2 ≤ items.length then
    buildCompressedScale now items mm.1 mm.2 rs re t
  else linearScale mm.1 mm.2 rs re t

/-- The per-item date formatter fmt: formatDate, or formatCompact in the
detected span mode when compactDates is on. -/
def fmtOf (now : ℚ) (cfg : Config) (items : List TimelineItem) : ℚ → String :=
  if cfg.compactDates then fun d => formatCompact d (detectDateSpan now items).mode
  else fun d => formatDate d

/-- getItemDate: the date of an event or note, the start date of a
period. -/
def getItemDate (now : ℚ) : TimelineItem → ℚ
  | .event _ _ d => parseDate now d
  | .note _ _ d => parseDate now d
  | .period _ _ sd _ => parseDate now sd

/-- The per-item layout record computed by the layoutMap memo. -/
structure LayoutEntry where
  side : ℤ
  yExtra : ℚ
  rawX : ℚ
  cx : ℚ
  halfW : ℚ
  bandStart : ℚ
  bandHeight : ℚ
  x1 : Option ℚ
  x2 : Option ℚ
deriving DecidableEq

/-- The slide-boundary loop of snap: boundaries i * canvasWidth for
i = 1 .. totalSlices - 1; on the first boundary strictly inside the label
interval, return the snapped center; otherwise return x unchanged. -/
def snapGo (W x hw : ℚ) (total : ℕ) : ℕ → ℕ → ℚ
  | 0, _ => x
  | fuel + 1, i =>
    if i < total then
      let boundary := (i : ℚ) * W
      if x - hw < boundary ∧ boundary < x + hw then
        if boundary - (x - hw) < (x + hw) - boundary then boundary - hw - 4
        else boundary + hw + 4
      else snapGo W x hw total fuel (i + 1)
    else x

/-- TimelinePreview.tsx snap: identity unless avoidSplit and exportMode
hold with more than one slice. -/
def snap (cfg : Config) (x hw : ℚ) : ℚ :=
  if cfg.avoidSplit = false ∨ cfg.exportMode = false ∨ cfg.totalSlices ≤ 1 then x
  else snapGo cfg.canvasWidth x hw cfg.totalSlices cfg.totalSlices 1

/-- Initial placement of one item (given its index in the time-sorted
list): side alternates by index (periods are pinned to the top side),
band constants per item type match the bandDefs table, halfW combines the
label and date width estimates, cx starts at the snapped raw position
(for periods, at the bar midpoint). -/
def mkEntry (now : ℚ) (cfg : Config) (xS : ℚ → ℚ) (fmt : ℚ → String) (idx : ℕ) :
    TimelineItem → String × LayoutEntry
  | .event id label date =>
    let s := cfg.contentScale
    let side : ℤ := if idx % 2 = 0 then -1 else 1
    let rawX := xS (parseDate now date)
    let labelW := estimateTextWidth label (14 * s) true
    let dateW := estimateTextWidth (fmt (parseDate now date)) (11 * s) false
    let halfW := max labelW (max dateW (100 * s)) / 2 + 12 * s
    (id, ⟨side, 0, rawX, snap cfg rawX halfW, halfW, 110 * s, 55 * s, none, none⟩)
  | .period id label sd ed =>
    let s := cfg.contentScale
    let x1 := xS (parseDate now sd)
    let x2raw := xS (parseDate now ed)
    let spanW := max (x2raw - x1) (minPeriodWidth * s)
    let x2 := x1 + spanW
    let labelW := estimateTextWidth label (14 * s) true
    let dateStr := fmt (parseDate now sd) ++ (" - ") ++ fmt (parseDate now ed)
    let dateW := estimateTextWidth dateStr (11 * s) false
    let halfW := max labelW (max dateW (x2 - x1)) / 2 + 8 * s
    (id, ⟨-1, 0, (x1 + x2) / 2, (x1 + x2) / 2, halfW, 36 * s, 40 * s, some x1, some x2⟩)
  | .note id label date =>
    let s := cfg.contentScale
    let side : ℤ := if idx % 2 = 0 then -1 else 1
    let rawX := xS (parseDate now date)
    let labelW := estimateTextWidth label (12 * s) false
    let dateW := estimateTextWidth (fmt (parseDate now date)) (9 * s) false
    let halfW := max labelW dateW / 2 + 8 * s
    let bandStart := if side = -1 then 58 * s else 66 * s
    (id, ⟨side, 0, rawX, snap cfg rawX halfW, halfW, bandStart, 36 * s, none, none⟩)

/-- Initial entries in time-sorted order with their indices. -/
def initialEntries (now : ℚ) (cfg : Config) (xS : ℚ → ℚ) (fmt : ℚ → String)
    (sorted : List TimelineItem) : List (String × LayoutEntry) :=
  sorted.enum.map fun p => mkEntry now cfg xS fmt p.1 p.2

/-- One step of the collision inner loop: entry b (the later one in
center-x order) checked against an already placed entry a; when the label
intervals overlap and b's band would start above a's band end, push b's
extra offset down to clear a plus a 10 * s margin. -/
def resolveStep (s : ℚ) (a b : LayoutEntry) : LayoutEntry :=
  if a.cx + a.halfW ≤ b.cx - b.halfW then b
  else if b.cx + b.halfW ≤ a.cx - a.halfW then b
  else
    let aEnd := a.bandStart + a.yExtra + a.bandHeight
    if b.bandStart + b.yExtra < aEnd then { b with yExtra := aEnd - b.bandStart + 10 * s }
    else b

/-- The inner loop j = 0 .. i-1 over the already placed prefix. -/
def resolveAgainst (s : ℚ) (done : List (String × LayoutEntry)) (b : LayoutEntry) :
    LayoutEntry :=
  done.foldl (fun b a => resolveStep s a.2 b) b

/-- The outer collision loop over one side's center-x sorted entries;
each entry is resolved against the final versions of all earlier entries
(earlier entries never move again). -/
def sweepGo (s : ℚ) (done : List (String × LayoutEntry)) :
    List (String × LayoutEntry) → List (String × LayoutEntry)
  | [] => done
  | e :: rest => sweepGo s (done ++ [(e.1, resolveAgainst s done e.2)]) rest

def sweepSide (s : ℚ) (l : List (String × LayoutEntry)) : List (String × LayoutEntry) :=
  sweepGo s [] l

/-- Collision resolution for both sides. The source mutates the shared
entry objects in place; the id-to-entry map it finally builds is
insensitive to entry order, so the model keeps the top-side entries
(sorted by cx) followed by the bottom-side ones. -/
def entriesBySide (s : ℚ) (entries : List (String × LayoutEntry)) :
    List (String × LayoutEntry) :=
  sweepSide s (sortByKey (fun e => e.2.cx) (entries.filter fun e => decide (e.2.side = -1)))
    ++ sweepSide s (sortByKey (fun e => e.2.cx) (entries.filter fun e => decide (e.2.side = 1)))

/-- One step of the period-bar avoidance pass: a non-period label box
overlapping a period bar while its marker is outside the bar is shifted
just beyond the nearer bar edge, but only when the shift stays within
twice its own half width. -/
def shiftStep (s : ℚ) (ent : LayoutEntry) (p : LayoutEntry) : LayoutEntry :=
  match p.x1, p.x2 with
  | some px1, some px2 =>
    if px1 < ent.cx + ent.halfW ∧ ent.cx - ent.halfW < px2 ∧
        (ent.rawX < px1 ∨ px2 < ent.rawX) then
      if ent.rawX < px1 then
        let newCx := px1 - ent.halfW - 4 * s
        if ent.rawX - ent.halfW * 2 < newCx then { ent with cx := newCx } else ent
      else
        let newCx := px2 + ent.halfW + 4 * s
        if newCx < ent.rawX + ent.halfW * 2 then { ent with cx := newCx } else ent
    else ent
  | _, _ => ent

/-- The period-bar avoidance pass for one entry (periods themselves are
skipped). -/
def applyShift (s : ℚ) (bars : List (String × LayoutEntry)) (e : String × LayoutEntry) :
    String × LayoutEntry :=
  if e.2.x1.isSome then e
  else (e.1, bars.foldl (fun ent p => shiftStep s ent p.2) e.2)

/-- Marker rebinding: when the label center ended on a different slide
than the raw marker position, move the marker to the label center. -/
def rebindMarker (W : ℚ) (e : String × LayoutEntry) : String × LayoutEntry :=
  if ⌊e.2.rawX / W⌋ ≠ ⌊e.2.cx / W⌋ then (e.1, { e.2 with rawX := e.2.cx }) else e

/-- The layoutMap memo body given the already built scale, formatter and
time-sorted items: initial placement, per-side collision sweep, then the
period-bar avoidance pass (non-export mode only) and marker rebinding
(export mode with more than one slice only). -/
def layoutCore (now : ℚ) (cfg : Config) (xS : ℚ → ℚ) (fmt : ℚ → String)
    (sorted : List TimelineItem) : List (String × LayoutEntry) :=
  let s := cfg.contentScale
  let afterSweep := entriesBySide s (initialEntries now cfg xS fmt sorted)
  let bars := afterSweep.filter fun e => e.2.x1.isSome
  let afterShift :=
    if cfg.exportMode = false then afterSweep.map (applyShift s bars) else afterSweep
  if cfg.exportMode = true ∧ 1 < cfg.totalSlices then
    afterShift.map (rebindMarker cfg.canvasWidth)
  else afterShift

/-- The full layout computation. The id-to-LayoutEntry map is modelled as
this association list (item ids are unique in the application, so the
JavaScript Map and the list carry the same information). -/
def layoutEntries (now : ℚ) (cfg : Config) (items : List TimelineItem) :
    List (String × LayoutEntry) :=
  layoutCore now cfg (xScaleOf now cfg items) (fmtOf now cfg items)
    (sortByKey (getItemDate now) items)

/-- An item is wall-clock independent when every date string it stores
parses and it is not a note: for such items no layout quantity consults
the current instant. A note is excluded because getMinMaxDates reads its
absent startDate and endDate fields, which parse to the current
instant. -/
def wallClockFree : TimelineItem → Prop
  | .event _ _ d => d ≠ none
  | .period _ _ sd ed => sd ≠ none ∧ ed ≠ none
  | .note _ _ _ => False

/-- Modelled from the spec: rangeOf computes the earliest and latest
instant across all event/note instants and all period start/end instants,
then pads as getMinMaxDates does (10 percent of the span, or 30 days on a
zero span; (now, now) on an empty list). This differs from the source
getMinMaxDates only in reading a note's own date instead of the note's
absent startDate/endDate fields. -/
def rangeOfSpec (now : ℚ) (items : List TimelineItem) : ℚ × ℚ :=
  if items = [] then (now, now)
  else
    let dates := datesOf now items
    let mn := dates.foldl min (dates.headD 0)
    let mx := dates.foldl max (dates.headD 0)
    let range := mx - mn
    let padding := if range * (1 / 10) = 0 then 86400000 * 30 else range * (1 / 10)
    (mn - padding, mx + padding)

/-! ## Basic lemmas about the stable sort -/

theorem insSorted_perm (key : α → ℚ) (x : α) (l : List α) :
    (insSorted key x l).Perm (x :: l) := by
  induction l with
  | nil => exact List.Perm.refl _
  | cons y ys ih =>
    simp only [insSorted]
    split
    · exact List.Perm.refl _
    · exact (ih.cons y).trans (List.Perm.swap x y ys)

theorem sortByKey_perm (key : α → ℚ) (l : List α) : (sortByKey key l).Perm l := by
  induction l with
  | nil => exact List.Perm.refl _
  | cons a l ih =>
    simp only [sortByKey, List.foldr_cons]
    exact (insSorted_perm key a _).trans (ih.cons a)

theorem mem_insSorted {key : α → ℚ} {x a : α} {l : List α} :
    a ∈ insSorted key x l ↔ a = x ∨ a ∈ l := by
  rw [(insSorted_perm key x l).mem_iff, List.mem_cons]

theorem insSorted_pairwise {key : α → ℚ} {x : α} {l : List α}
    (h : List.Pairwise (fun a b => key a ≤ key b) l) :
    List.Pairwise (fun a b => key a ≤ key b) (insSorted key x l) := by
  induction l with
  | nil => simp [insSorted]
  | cons y ys ih =>
    rcases List.pairwise_cons.mp h with ⟨hy, hys⟩
    simp only [insSorted]
    split
    · rename_i hxy
      refine List.pairwise_cons.mpr ⟨?_, h⟩
      intro b hb
      rcases List.mem_cons.mp hb with rfl | hb
      · exact hxy
      · exact le_trans hxy (hy b hb)
    · rename_i hxy
      refine List.pairwise_cons.mpr ⟨?_, ih hys⟩
      intro b hb
      rcases mem_insSorted.mp hb with rfl | hb
      · exact le_of_lt (lt_of_not_ge hxy)
      · exact hy b hb

theorem sortByKey_pairwise (key : α → ℚ) (l : List α) :
    List.Pairwise (fun a b => key a ≤ key b) (sortByKey key l) := by
  induction l with
  | nil => simp [sortByKey]
  | cons a l ih =>
    simp only [sortByKey, List.foldr_cons]
    exact insSorted_pairwise ih

theorem insSorted_congr {key1 key2 : α → ℚ} {x : α} {l : List α}
    (h : ∀ a ∈ x :: l, key1 a = key2 a) :
    insSorted key1 x l = insSorted key2 x l := by
  induction l with
  | nil => rfl
  | cons y ys ih =>
    have hx := h x (by simp)
    have hy := h y (by simp)
    simp only [insSorted, hx, hy]
    split
    · rfl
    · rw [ih]
      intro a ha
      rcases List.mem_cons.mp ha with rfl | ha
      · exact hx
      · exact h a (by simp [ha])

theorem sortByKey_congr {key1 key2 : α → ℚ} {l : List α}
    (h : ∀ a ∈ l, key1 a = key2 a) : sortByKey key1 l = sortByKey key2 l := by
  induction l with
  | nil => rfl
  | cons a l ih =>
    simp only [sortByKey, List.foldr_cons] at *
    rw [ih fun b hb => h b (by simp [hb]), insSorted_congr]
    intro b hb
    rcases List.mem_cons.mp hb with rfl | hb
    · exact h b (by simp)
    · exact h b ((sortByKey_perm key2 l).mem_iff.mp hb |> fun hb => by simp [hb])

/-! ## The domain returned by getMinMaxDates is never degenerate on a
nonempty item list -/

theorem foldl_min_le (l : List ℚ) (a : ℚ) : l.foldl min a ≤ a := by
  induction l generalizing a with
  | nil => exact le_refl a
  | cons x l ih => exact le_trans (ih (min a x)) (min_le_left a x)

theorem le_foldl_max (l : List ℚ) (a : ℚ) : a ≤ l.foldl max a := by
  induction l generalizing a with
  | nil => exact le_refl a
  | cons x l ih => exact le_trans (le_max_left a x) (ih (max a x))

theorem getMinMaxDates_lt (now : ℚ) (items : List TimelineItem) (h : items ≠ []) :
    (getMinMaxDates now items).1 < (getMinMaxDates now items).2 := by
  unfold getMinMaxDates
  rw [if_neg h]
  set dates := items.foldr (fun i acc => itemMinMaxDates now i ++ acc) [] with hd
  set seed := dates.headD 0 with hs
  have h1 : dates.foldl min seed ≤ seed := foldl_min_le dates seed
  have h2 : seed ≤ dates.foldl max seed := le_foldl_max dates seed
  set mn := dates.foldl min seed
  set mx := dates.foldl max seed
  have hr : 0 ≤ mx - mn := by linarith
  simp only
  split
  · rename_i h0
    have : mx - mn = 0 := by linarith [mul_eq_zero.mp h0]
    nlinarith
  · rename_i h0
    have : 0 < (mx - mn) * (1 / 10) := by
      rcases lt_or_eq_of_le hr with h1 | h1
      · positivity
      · exact absurd (by rw [← h1]; ring) h0
    nlinarith

/-! ## uniqueTs is strictly sorted -/

theorem uniqueTs_sorted (now mn mx : ℚ) (items : List TimelineItem) :
    List.Pairwise (· < ·) (uniqueTs now mn mx items) := by
  have h1 : List.Pairwise (fun a b : ℚ => a ≤ b)
      (sortByKey id (scaleTimestamps now mn mx items)) := sortByKey_pairwise id _
  have h2 := List.Pairwise.sublist
    (List.dedup_sublist (sortByKey id (scaleTimestamps now mn mx items))) h1
  have h3 : (sortByKey id (scaleTimestamps now mn mx items)).dedup.Nodup :=
    List.nodup_dedup _
  exact (h2.and h3).imp fun h => lt_of_le_of_ne h.1 h.2

/-! ## Running-sum lemmas for the compressed cumulative distances -/

theorem sumsFrom_length (c : ℚ) (l : List ℚ) : (sumsFrom c l).length = l.length + 1 := by
  induction l generalizing c with
  | nil => rfl
  | cons g gs ih => simp [sumsFrom, ih]

theorem sumsFrom_getD_zero (c : ℚ) (l : List ℚ) : (sumsFrom c l).getD 0 0 = c := by
  cases l <;> rfl

theorem sumsFrom_diff (c : ℚ) (l : List ℚ) (i : ℕ) (hi : i < l.length) :
    (sumsFrom c l).getD (i + 1) 0 - (sumsFrom c l).getD i 0 = l.getD i 0 := by
  induction l generalizing c i with
  | nil => simp at hi
  | cons g gs ih =>
    cases i with
    | zero =>
      have h1 : (sumsFrom c (g :: gs)).getD 1 0 = (sumsFrom (c + g) gs).getD 0 0 := rfl
      have h0 : (sumsFrom c (g :: gs)).getD 0 0 = c := sumsFrom_getD_zero c _
      rw [h1, h0, sumsFrom_getD_zero]
      simp
    | succ i =>
      have h := ih (c + g) i (by simpa using hi)
      simpa [sumsFrom] using h

theorem sumsFrom_base_le (c : ℚ) (l : List ℚ) (h : ∀ g ∈ l, 0 ≤ g) (j : ℕ)
    (hj : j < (sumsFrom c l).length) : c ≤ (sumsFrom c l).getD j 0 := by
  induction l generalizing c j with
  | nil =>
    simp only [sumsFrom_length, List.length_nil] at hj
    have hj0 : j = 0 := by omega
    subst hj0
    simp [sumsFrom]
  | cons g gs ih =>
    cases j with
    | zero => simp [sumsFrom]
    | succ j =>
      have hg : 0 ≤ g := h g (by simp)
      have h2 := ih (c + g) (fun x hx => h x (by simp [hx]))
        j (by rw [sumsFrom_length] at *; simpa [sumsFrom] using hj)
      calc c ≤ c + g := by linarith
        _ ≤ (sumsFrom (c + g) gs).getD j 0 := h2
        _ = (sumsFrom c (g :: gs)).getD (j + 1) 0 := rfl

theorem sumsFrom_mono (c : ℚ) (l : List ℚ) (h : ∀ g ∈ l, 0 ≤ g) (i j : ℕ)
    (hij : i ≤ j) (hj : j < (sumsFrom c l).length) :
    (sumsFrom c l).getD i 0 ≤ (sumsFrom c l).getD j 0 := by
  induction l generalizing c i j with
  | nil =>
    simp only [sumsFrom_length, List.length_nil] at hj
    have hj0 : j = 0 := by omega
    have hi0 : i = 0 := by omega
    subst hj0
    subst hi0
    exact le_refl _
  | cons g gs ih =>
    cases i with
    | zero =>
      rw [sumsFrom_getD_zero]
      exact sumsFrom_base_le c _ h j hj
    | succ i =>
      cases j with
      | zero => omega
      | succ j =>
        have h2 := ih (c + g) (fun x hx => h x (by simp [hx])) i j (by omega)
          (by rw [sumsFrom_length] at *; simpa [sumsFrom] using hj)
        exact h2

theorem sumsFrom_getLastD (c : ℚ) (l : List ℚ) (a : ℚ) :
    (sumsFrom c l).getLastD a = (sumsFrom c l).getD l.length 0 := by
  induction l generalizing c a with
  | nil => rfl
  | cons g gs ih =>
    show (c :: sumsFrom (c + g) gs).getLastD a = _
    rw [List.getLastD_cons, ih (c + g) c]
    rfl

/-! ## Gap lemmas -/

theorem gapsOf_length (u : List ℚ) : (gapsOf u).length = u.length - 1 := by
  simp only [gapsOf, List.length_map, List.length_zip, List.length_tail]
  omega

theorem gapsOf_getD (u : List ℚ) (i : ℕ) (hi : i + 1 < u.length) :
    (gapsOf u).getD i 0 = u.getD (i + 1) 0 - u.getD i 0 := by
  have hlen : i < (gapsOf u).length := by rw [gapsOf_length]; omega
  have hzip : i < (u.zip u.tail).length := by
    simpa [gapsOf] using hlen
  have ht : i < u.tail.length := by simp [List.length_tail]; omega
  rw [List.getD_eq_getElem _ _ hlen, List.getD_eq_getElem _ _ hi,
    List.getD_eq_getElem _ _ (by omega : i < u.length)]
  simp [gapsOf, List.getElem_zip, List.getElem_tail]

theorem pairwise_lt_getD (u : List ℚ) (hu : List.Pairwise (· < ·) u) (i j : ℕ)
    (hij : i < j) (hj : j < u.length) : u.getD i 0 < u.getD j 0 := by
  rw [List.getD_eq_getElem _ _ (lt_trans hij hj), List.getD_eq_getElem _ _ hj]
  have h := List.pairwise_iff_get.mp hu ⟨i, lt_trans hij hj⟩ ⟨j, hj⟩ hij
  simpa using h

theorem gapsOf_pos (u : List ℚ) (hu : List.Pairwise (· < ·) u) :
    ∀ g ∈ gapsOf u, 0 < g := by
  intro g hg
  rcases List.mem_iff_get.mp hg with ⟨⟨i, hi⟩, rfl⟩
  have hi2 : i + 1 < u.length := by
    have := hi
    rw [gapsOf_length] at this
    omega
  have h := pairwise_lt_getD u hu i (i + 1) (by omega) hi2
  have hgd : (gapsOf u).get ⟨i, hi⟩ = (gapsOf u).getD i 0 :=
    (List.getD_eq_getElem _ _ hi).symm
  rw [hgd, gapsOf_getD u i hi2]
  linarith

theorem getD_mem (l : List ℚ) (i : ℕ) (hi : i < l.length) : l.getD i 0 ∈ l := by
  rw [List.getD_eq_getElem _ _ hi]
  exact List.getElem_mem hi

theorem thresholdOf_pos (u : List ℚ) (hu : List.Pairwise (· < ·) u)
    (h2 : 2 ≤ u.length) : 0 < thresholdOf (gapsOf u) := by
  unfold thresholdOf
  have hlen : (sortByKey id (gapsOf u)).length = (gapsOf u).length :=
    (sortByKey_perm id (gapsOf u)).length_eq
  have hg : 1 ≤ (gapsOf u).length := by rw [gapsOf_length]; omega
  have hidx : (sortByKey id (gapsOf u)).length / 2 < (sortByKey id (gapsOf u)).length := by
    omega
  have hmem := getD_mem _ _ hidx
  have hmem2 : (sortByKey id (gapsOf u)).getD ((sortByKey id (gapsOf u)).length / 2) 0
      ∈ gapsOf u := (sortByKey_perm id (gapsOf u)).mem_iff.mp hmem
  have := gapsOf_pos u hu _ hmem2
  simp only
  nlinarith

theorem increments_length (th : ℚ) (gaps : List ℚ) :
    (increments th gaps).length = gaps.length := List.length_map _ _

theorem increments_pos (th : ℚ) (gaps : List ℚ) (hg : ∀ g ∈ gaps, 0 < g) :
    ∀ x ∈ increments th gaps, 0 < x := by
  intro x hx
  rcases List.mem_map.mp hx with ⟨g, hgm, rfl⟩
  split
  · rename_i h
    exact h.1
  · exact hg g hgm

theorem increments_getD (th : ℚ) (gaps : List ℚ) (i : ℕ) (hi : i < gaps.length) :
    (increments th gaps).getD i 0 =
      if 0 < th ∧ th < gaps.getD i 0 then th else gaps.getD i 0 := by
  have hi2 : i < (increments th gaps).length := by rw [increments_length]; exact hi
  rw [List.getD_eq_getElem _ _ hi2, List.getD_eq_getElem _ _ hi]
  simp [increments]

/-! ## Characterisation of the segment-finding loop -/

theorem segGo_eq (u : List ℚ) (t : ℚ) (j : ℕ)
    (hbr : u.getD j 0 ≤ t ∧ t ≤ u.getD (j + 1) 0) (hjr : j + 1 < u.length)
    (hleast : ∀ k < j, ¬(u.getD k 0 ≤ t ∧ t ≤ u.getD (k + 1) 0)) :
    ∀ fuel i seg, i ≤ j → u.length ≤ fuel + (i + 1) → segGo u t fuel i seg = j := by
  intro fuel
  induction fuel with
  | zero => intro i seg hij hfuel; omega
  | succ fuel ih =>
    intro i seg hij hfuel
    have hi1 : i + 1 < u.length := by omega
    simp only [segGo]
    rw [if_pos hi1]
    by_cases hb : u.getD i 0 ≤ t ∧ t ≤ u.getD (i + 1) 0
    · rw [if_pos hb]
      by_contra hne
      exact hleast i (lt_of_le_of_ne hij hne) hb
    · rw [if_neg hb]
      have hlt : i < j := by
        rcases lt_or_eq_of_le hij with h | h
        · exact h
        · subst h; exact absurd hbr hb
      exact ih (i + 1) _ (by omega) (by omega)

theorem segLoop_spec (u : List ℚ) (t : ℚ) (hu : List.Pairwise (· < ·) u)
    (h2 : 2 ≤ u.length) (hl : u.getD 0 0 < t) (hr : t < u.getD (u.length - 1) 0) :
    u.getD (segLoop u t) 0 ≤ t ∧ t ≤ u.getD (segLoop u t + 1) 0 ∧
      segLoop u t + 1 < u.length ∧
      ∀ k, u.getD k 0 ≤ t ∧ t ≤ u.getD (k + 1) 0 → segLoop u t ≤ k := by
  have hex : ∃ i, t ≤ u.getD (i + 1) 0 := by
    refine ⟨u.length - 2, ?_⟩
    have h : u.length - 2 + 1 = u.length - 1 := by omega
    rw [h]
    exact le_of_lt hr
  set j := Nat.find hex with hjdef
  have hPj : t ≤ u.getD (j + 1) 0 := Nat.find_spec hex
  have hjle : j ≤ u.length - 2 := Nat.find_le (by
    have h : u.length - 2 + 1 = u.length - 1 := by omega
    rw [h]
    exact le_of_lt hr)
  have hjlt : j + 1 < u.length := by omega
  have hless : u.getD j 0 ≤ t := by
    rcases Nat.eq_zero_or_pos j with h0 | h0
    · rw [h0]; exact le_of_lt hl
    · have hmin := Nat.find_min hex (show j - 1 < Nat.find hex by rw [← hjdef]; omega)
      push_neg at hmin
      have hk : j - 1 + 1 = j := by omega
      rw [hk] at hmin
      exact le_of_lt hmin
  have hleast : ∀ m < j, ¬(u.getD m 0 ≤ t ∧ t ≤ u.getD (m + 1) 0) :=
    fun m hm hc => Nat.find_min hex hm hc.2
  have hseg : segLoop u t = j := by
    unfold segLoop
    exact segGo_eq u t j ⟨hless, hPj⟩ hjlt hleast u.length 0 0 (by omega) (by omega)
  rw [hseg]
  refine ⟨hless, hPj, hjlt, fun k hk => ?_⟩
  by_contra hlt
  push_neg at hlt
  exact hleast k hlt hk

/-! ## The interior value of the compressed scale -/

/-- The compVal expression of the compressed scale for an in-range t. -/
def compValAt (u comp : List ℚ) (t : ℚ) : ℚ :=
  let seg := segLoop u t
  let frac :=
    if u.getD (seg + 1) 0 = u.getD seg 0 then 0
    else (t - u.getD seg 0) / (u.getD (seg + 1) 0 - u.getD seg 0)
  comp.getD seg 0 + frac * (comp.getD (seg + 1) 0 - comp.getD seg 0)

theorem compressedScaleAt_eq_interior (u comp : List ℚ) (cum rs re t : ℚ)
    (h1 : ¬ t ≤ u.getD 0 0) (h2 : ¬ u.getD (u.length - 1) 0 ≤ t) :
    compressedScaleAt u comp cum rs re t = rs + compValAt u comp t / cum * (re - rs) := by
  unfold compressedScaleAt compValAt
  rw [if_neg h1, if_neg h2]

theorem compValAt_bounds (u comp : List ℚ) (t : ℚ)
    (hu : List.Pairwise (· < ·) u) (h2 : 2 ≤ u.length)
    (hlen : comp.length = u.length)
    (hmono : ∀ i j : ℕ, i ≤ j → j < comp.length → comp.getD i 0 ≤ comp.getD j 0)
    (hzero : comp.getD 0 0 = 0)
    (hl : u.getD 0 0 < t) (hr : t < u.getD (u.length - 1) 0) :
    0 ≤ compValAt u comp t ∧ compValAt u comp t ≤ comp.getD (u.length - 1) 0 ∧
      comp.getD (segLoop u t) 0 ≤ compValAt u comp t ∧
      compValAt u comp t ≤ comp.getD (segLoop u t + 1) 0 := by
  obtain ⟨hsa, hsb, hslt, _⟩ := segLoop_spec u t hu h2 hl hr
  set j := segLoop u t
  have hab : u.getD j 0 < u.getD (j + 1) 0 := pairwise_lt_getD u hu j (j + 1) (by omega) hslt
  have hfrac : ¬ u.getD (j + 1) 0 = u.getD j 0 := ne_of_gt hab
  unfold compValAt
  dsimp only
  rw [if_neg hfrac]
  set a := u.getD j 0
  set b := u.getD (j + 1) 0
  set ca := comp.getD j 0
  set cb := comp.getD (j + 1) 0
  have hcacb : ca ≤ cb := hmono j (j + 1) (by omega) (by omega)
  have hf0 : 0 ≤ (t - a) / (b - a) := div_nonneg (by linarith) (by linarith)
  have hf1 : (t - a) / (b - a) ≤ 1 := (div_le_one (by linarith)).mpr (by linarith)
  have hca0 : 0 ≤ ca := hzero ▸ hmono 0 j (by omega) (by omega)
  have hcblast : cb ≤ comp.getD (u.length - 1) 0 := hmono (j + 1) (u.length - 1) (by omega) (by omega)
  constructor
  · nlinarith
  constructor
  · nlinarith
  constructor
  · nlinarith
  · nlinarith

theorem compValAt_mono (u comp : List ℚ) (t1 t2 : ℚ)
    (hu : List.Pairwise (· < ·) u) (h2 : 2 ≤ u.length)
    (hlen : comp.length = u.length)
    (hmono : ∀ i j : ℕ, i ≤ j → j < comp.length → comp.getD i 0 ≤ comp.getD j 0)
    (hzero : comp.getD 0 0 = 0)
    (hl1 : u.getD 0 0 < t1) (hr1 : t1 < u.getD (u.length - 1) 0)
    (hl2 : u.getD 0 0 < t2) (hr2 : t2 < u.getD (u.length - 1) 0)
    (h12 : t1 ≤ t2) : compValAt u comp t1 ≤ compValAt u comp t2 := by
  obtain ⟨h1a, h1b, h1lt, h1min⟩ := segLoop_spec u t1 hu h2 hl1 hr1
  obtain ⟨h2a, h2b, h2lt, _⟩ := segLoop_spec u t2 hu h2 hl2 hr2
  have hbd1 := compValAt_bounds u comp t1 hu h2 hlen hmono hzero hl1 hr1
  have hbd2 := compValAt_bounds u comp t2 hu h2 hlen hmono hzero hl2 hr2
  have hj12 : segLoop u t1 ≤ segLoop u t2 := by
    by_cases hcase : u.getD (segLoop u t2) 0 ≤ t1
    · exact h1min (segLoop u t2) ⟨hcase, le_trans h12 h2b⟩
    · push_neg at hcase
      by_contra hlt
      push_neg at hlt
      have hgd := pairwise_lt_getD u hu (segLoop u t2) (segLoop u t1) hlt (by omega)
      linarith
  rcases lt_or_eq_of_le hj12 with hjlt | hjeq
  · calc compValAt u comp t1 ≤ comp.getD (segLoop u t1 + 1) 0 := hbd1.2.2.2
      _ ≤ comp.getD (segLoop u t2) 0 := hmono _ _ (by omega) (by omega)
      _ ≤ compValAt u comp t2 := hbd2.2.2.1
  · have hab : u.getD (segLoop u t1) 0 < u.getD (segLoop u t1 + 1) 0 :=
      pairwise_lt_getD u hu _ _ (by omega) h1lt
    have hfrac : ¬ u.getD (segLoop u t1 + 1) 0 = u.getD (segLoop u t1) 0 := ne_of_gt hab
    unfold compValAt
    dsimp only
    rw [← hjeq]
    simp only [if_neg hfrac]
    set a := u.getD (segLoop u t1) 0
    set b := u.getD (segLoop u t1 + 1) 0
    set ca := comp.getD (segLoop u t1) 0
    set cb := comp.getD (segLoop u t1 + 1) 0
    have hcacb : ca ≤ cb := hmono _ _ (by omega) (by omega)
    have hba : (0 : ℚ) < b - a := by linarith
    have hfr : (t1 - a) / (b - a) ≤ (t2 - a) / (b - a) := by
      have h := mul_le_mul_of_nonneg_right (sub_le_sub_right h12 a)
        (le_of_lt (inv_pos.mpr hba))
      simpa [div_eq_mul_inv] using h
    have hstep := mul_le_mul_of_nonneg_right hfr (by linarith : (0 : ℚ) ≤ cb - ca)
    linarith

theorem compressedScaleAt_eq_low (u comp : List ℚ) (cum rs re t : ℚ)
    (h : t ≤ u.getD 0 0) : compressedScaleAt u comp cum rs re t = rs := by
  unfold compressedScaleAt
  rw [if_pos h]

theorem compressedScaleAt_eq_high (u comp : List ℚ) (cum rs re t : ℚ)
    (h1 : ¬ t ≤ u.getD 0 0) (h2 : u.getD (u.length - 1) 0 ≤ t) :
    compressedScaleAt u comp cum rs re t = re := by
  unfold compressedScaleAt
  rw [if_neg h1, if_pos h2]

theorem compressedScaleAt_mono (u comp : List ℚ) (cum rs re : ℚ)
    (hu : List.Pairwise (· < ·) u) (h2 : 2 ≤ u.length)
    (hlen : comp.length = u.length)
    (hmono : ∀ i j : ℕ, i ≤ j → j < comp.length → comp.getD i 0 ≤ comp.getD j 0)
    (hzero : comp.getD 0 0 = 0)
    (hcum : cum = comp.getD (u.length - 1) 0)
    (hcumpos : 0 < cum) (hrange : rs ≤ re)
    (t1 t2 : ℚ) (h12 : t1 ≤ t2) :
    compressedScaleAt u comp cum rs re t1 ≤ compressedScaleAt u comp cum rs re t2 := by
  have hval : ∀ t, rs ≤ compressedScaleAt u comp cum rs re t ∧
      compressedScaleAt u comp cum rs re t ≤ re := by
    intro t
    by_cases hb : t ≤ u.getD 0 0
    · rw [compressedScaleAt_eq_low u comp cum rs re t hb]
      exact ⟨le_refl _, hrange⟩
    · by_cases hc : u.getD (u.length - 1) 0 ≤ t
      · rw [compressedScaleAt_eq_high u comp cum rs re t hb hc]
        exact ⟨hrange, le_refl _⟩
      · rw [compressedScaleAt_eq_interior u comp cum rs re t hb hc]
        have hbd := compValAt_bounds u comp t hu h2 hlen hmono hzero
          (lt_of_not_ge hb) (lt_of_not_ge hc)
        have hq0 : 0 ≤ compValAt u comp t / cum := div_nonneg hbd.1 (le_of_lt hcumpos)
        have hq1 : compValAt u comp t / cum ≤ 1 :=
          (div_le_one hcumpos).mpr (hcum ▸ hbd.2.1)
        have hm0 : 0 ≤ compValAt u comp t / cum * (re - rs) :=
          mul_nonneg hq0 (by linarith)
        have hm1 : compValAt u comp t / cum * (re - rs) ≤ re - rs := by nlinarith
        exact ⟨by linarith, by linarith⟩
  by_cases hb1 : t1 ≤ u.getD 0 0
  · rw [compressedScaleAt_eq_low u comp cum rs re t1 hb1]
    exact (hval t2).1
  · by_cases hc1 : u.getD (u.length - 1) 0 ≤ t1
    · have hb2 : ¬ t2 ≤ u.getD 0 0 := by push_neg at hb1 ⊢; linarith
      have hc2 : u.getD (u.length - 1) 0 ≤ t2 := le_trans hc1 h12
      rw [compressedScaleAt_eq_high u comp cum rs re t1 hb1 hc1,
        compressedScaleAt_eq_high u comp cum rs re t2 hb2 hc2]
    · by_cases hc2 : u.getD (u.length - 1) 0 ≤ t2
      · have hb2 : ¬ t2 ≤ u.getD 0 0 := by push_neg at hb1 ⊢; linarith
        rw [compressedScaleAt_eq_high u comp cum rs re t2 hb2 hc2]
        exact (hval t1).2
      · have hb2 : ¬ t2 ≤ u.getD 0 0 := by push_neg at hb1 ⊢; linarith
        rw [compressedScaleAt_eq_interior u comp cum rs re t1 hb1 hc1,
          compressedScaleAt_eq_interior u comp cum rs re t2 hb2 hc2]
        have hcv := compValAt_mono u comp t1 t2 hu h2 hlen hmono hzero
          (lt_of_not_ge hb1) (lt_of_not_ge hc1) (lt_of_not_ge hb2) (lt_of_not_ge hc2) h12
        have hdiv : compValAt u comp t1 / cum ≤ compValAt u comp t2 / cum := by
          have h := mul_le_mul_of_nonneg_right hcv (le_of_lt (inv_pos.mpr hcumpos))
          simpa [div_eq_mul_inv] using h
        have := mul_le_mul_of_nonneg_right hdiv (by linarith : (0 : ℚ) ≤ re - rs)
        linarith

theorem sumsFrom_getLastD_pos (c : ℚ) (l : List ℚ) (hc : 0 < c)
    (h : ∀ g ∈ l, 0 ≤ g) (a : ℚ) : 0 < (sumsFrom c l).getLastD a := by
  rw [sumsFrom_getLastD]
  exact lt_of_lt_of_le hc
    (sumsFrom_base_le c l h l.length (by rw [sumsFrom_length]; omega))

theorem compressed_cum_pos (th : ℚ) (gaps : List ℚ) (hne : gaps ≠ [])
    (hpos : ∀ g ∈ gaps, 0 < g) : 0 < (compressedOf th gaps).getLastD 0 := by
  unfold compressedOf
  have hposi := increments_pos th gaps hpos
  cases hi : increments th gaps with
  | nil =>
    exfalso
    have hl := increments_length th gaps
    rw [hi] at hl
    exact hne (List.length_eq_zero.mp hl.symm)
  | cons g gs =>
    have h1 : sumsFrom (0 : ℚ) (g :: gs) = 0 :: sumsFrom (0 + g) gs := rfl
    rw [h1, List.getLastD_cons]
    apply sumsFrom_getLastD_pos
    · have hg : g ∈ increments th gaps := by rw [hi]; simp
      have := hposi g hg
      linarith
    · intro x hx
      have hxm : x ∈ increments th gaps := by rw [hi]; simp [hx]
      exact le_of_lt (hposi x hxm)

theorem buildCompressedScale_mono (now : ℚ) (items : List TimelineItem)
    (mn mx rs re : ℚ) (hrange : rs ≤ re) (t1 t2 : ℚ) (h12 : t1 ≤ t2) :
    buildCompressedScale now items mn mx rs re t1 ≤
      buildCompressedScale now items mn mx rs re t2 := by
  unfold buildCompressedScale
  have hu := uniqueTs_sorted now mn mx items
  set u := uniqueTs now mn mx items with hudef
  by_cases hlen : u.length < 2
  · rw [if_pos hlen, if_pos hlen]
  · push_neg at hlen
    have hnl : ¬ u.length < 2 := by omega
    rw [if_neg hnl, if_neg hnl]
    dsimp only
    have hgpos := gapsOf_pos u hu
    have hgne : gapsOf u ≠ [] := by
      intro hnil
      have hl := gapsOf_length u
      rw [hnil] at hl
      simp at hl
      omega
    have hcum := compressed_cum_pos (thresholdOf (gapsOf u)) (gapsOf u) hgne hgpos
    rw [if_neg (ne_of_gt hcum), if_neg (ne_of_gt hcum)]
    have hcomplen : (compressedOf (thresholdOf (gapsOf u)) (gapsOf u)).length = u.length := by
      unfold compressedOf
      rw [sumsFrom_length, increments_length, gapsOf_length]
      omega
    have hmono2 : ∀ i j : ℕ, i ≤ j →
        j < (compressedOf (thresholdOf (gapsOf u)) (gapsOf u)).length →
        (compressedOf (thresholdOf (gapsOf u)) (gapsOf u)).getD i 0 ≤
          (compressedOf (thresholdOf (gapsOf u)) (gapsOf u)).getD j 0 := by
      intro i j hij hj
      unfold compressedOf at hj ⊢
      exact sumsFrom_mono 0 _
        (fun g hg => le_of_lt (increments_pos _ _ hgpos g hg)) i j hij hj
    have hzero2 : (compressedOf (thresholdOf (gapsOf u)) (gapsOf u)).getD 0 0 = 0 :=
      sumsFrom_getD_zero 0 _
    have hlast2 : (compressedOf (thresholdOf (gapsOf u)) (gapsOf u)).getLastD 0 =
        (compressedOf (thresholdOf (gapsOf u)) (gapsOf u)).getD (u.length - 1) 0 := by
      unfold compressedOf
      rw [sumsFrom_getLastD]
      have e1 : (increments (thresholdOf (gapsOf u)) (gapsOf u)).length = u.length - 1 := by
        rw [increments_length, gapsOf_length]
      rw [e1]
    exact compressedScaleAt_mono u _ _ rs re hu hlen hcomplen hmono2 hzero2 hlast2
      hcum hrange t1 t2 h12

theorem linearScale_mono (mn mx rs re t1 t2 : ℚ) (hmm : mn < mx) (hrange : rs ≤ re)
    (h12 : t1 ≤ t2) : linearScale mn mx rs re t1 ≤ linearScale mn mx rs re t2 := by
  unfold linearScale
  have h1 : (t1 - mn) / (mx - mn) ≤ (t2 - mn) / (mx - mn) := by
    have h := mul_le_mul_of_nonneg_right (sub_le_sub_right h12 mn)
      (le_of_lt (inv_pos.mpr (by linarith : (0 : ℚ) < mx - mn)))
    simpa [div_eq_mul_inv] using h
  have h2 := mul_le_mul_of_nonneg_right h1 (by linarith : (0 : ℚ) ≤ re - rs)
  linarith

theorem xScaleOf_mono (now : ℚ) (cfg : Config) (items : List TimelineItem)
    (t1 t2 : ℚ) (hne : items ≠ []) (hw : 0 ≤ cfg.canvasWidth) (h12 : t1 ≤ t2) :
    xScaleOf now cfg items t1 ≤ xScaleOf now cfg items t2 := by
  unfold xScaleOf
  dsimp only
  have haw : 0 ≤ actualWidth cfg := by
    unfold actualWidth
    split
    · exact mul_nonneg hw (by positivity)
    · exact hw
  have hrange : actualWidth cfg * (1 / 10) ≤ actualWidth cfg * (9 / 10) := by nlinarith
  split
  · exact buildCompressedScale_mono now items _ _ _ _ hrange t1 t2 h12
  · exact linearScale_mono _ _ _ _ t1 t2 (getMinMaxDates_lt now items hne) hrange h12

/-- C5. For every two dates t1 < t2 and a fixed configuration, the pixel
positions satisfy rawX(t1) <= rawX(t2), under the linear scale and under
the gap-compressed piecewise-linear scale (the configuration flag selects
the variant; the linear variant needs the non-degenerate domain that any
nonempty item list produces, and a nonnegative canvas width). -/
theorem c5_order_preserving (now : ℚ) (cfg : Config) (items : List TimelineItem)
    (t1 t2 : ℚ) (hne : items ≠ []) (hw : 0 ≤ cfg.canvasWidth) (h12 : t1 < t2) :
    xScaleOf now cfg items t1 ≤ xScaleOf now cfg items t2 :=
  xScaleOf_mono now cfg items t1 t2 hne hw (le_of_lt h12)

/-- Witness for C5 at a concrete two-event timeline, once with the linear
scale and once with the gap-compressed scale. -/
theorem c5_order_preserving_witness :
    ((0 : ℚ) < 500) ∧
    xScaleOf 0 ⟨1, false, 1, 1200, 800, false, false, false⟩
      [TimelineItem.event ("a") ("A") (some 0), TimelineItem.event ("b") ("B") (some 1000)]
      0 ≤
      xScaleOf 0 ⟨1, false, 1, 1200, 800, false, false, false⟩
        [TimelineItem.event ("a") ("A") (some 0), TimelineItem.event ("b") ("B") (some 1000)]
        500 ∧
    xScaleOf 0 ⟨1, false, 1, 1200, 800, true, false, false⟩
      [TimelineItem.event ("a") ("A") (some 0), TimelineItem.event ("b") ("B") (some 1000)]
      0 ≤
      xScaleOf 0 ⟨1, false, 1, 1200, 800, true, false, false⟩
        [TimelineItem.event ("a") ("A") (some 0), TimelineItem.event ("b") ("B") (some 1000)]
        500 :=
  ⟨by norm_num,
    c5_order_preserving 0 _ _ 0 500 (List.cons_ne_nil _ _) (by norm_num) (by norm_num),
    c5_order_preserving 0 _ _ 0 500 (List.cons_ne_nil _ _) (by norm_num) (by norm_num)⟩

/-! ## Collision sweep: field preservation and the stacking invariant -/

/-- The horizontal overlap test of the collision loop: neither continue
guard fires. -/
def overlapsH (a b : LayoutEntry) : Prop :=
  b.cx - b.halfW < a.cx + a.halfW ∧ a.cx - a.halfW < b.cx + b.halfW

instance (a b : LayoutEntry) : Decidable (overlapsH a b) := by
  unfold overlapsH
  infer_instance

def bandEndY (a : LayoutEntry) : ℚ := a.bandStart + a.yExtra + a.bandHeight

def bandStartY (a : LayoutEntry) : ℚ := a.bandStart + a.yExtra

/-- Both entries agree on every field except possibly yExtra. -/
def eqModY (a b : LayoutEntry) : Prop :=
  a.side = b.side ∧ a.rawX = b.rawX ∧ a.cx = b.cx ∧ a.halfW = b.halfW ∧
    a.bandStart = b.bandStart ∧ a.bandHeight = b.bandHeight ∧ a.x1 = b.x1 ∧ a.x2 = b.x2

theorem eqModY_refl (a : LayoutEntry) : eqModY a a :=
  ⟨rfl, rfl, rfl, rfl, rfl, rfl, rfl, rfl⟩

theorem eqModY_trans {a b c : LayoutEntry} (h1 : eqModY a b) (h2 : eqModY b c) :
    eqModY a c := by
  obtain ⟨e1, e2, e3, e4, e5, e6, e7, e8⟩ := h1
  obtain ⟨f1, f2, f3, f4, f5, f6, f7, f8⟩ := h2
  exact ⟨e1.trans f1, e2.trans f2, e3.trans f3, e4.trans f4, e5.trans f5,
    e6.trans f6, e7.trans f7, e8.trans f8⟩

theorem overlapsH_congr_right {a b c : LayoutEntry} (h : eqModY b c) :
    overlapsH a b ↔ overlapsH a c := by
  unfold overlapsH
  rw [h.2.2.1, h.2.2.2.1]

theorem resolveStep_eqModY (s : ℚ) (a b : LayoutEntry) :
    eqModY b (resolveStep s a b) := by
  unfold resolveStep
  split
  · exact eqModY_refl b
  · split
    · exact eqModY_refl b
    · dsimp only
      split
      · exact ⟨rfl, rfl, rfl, rfl, rfl, rfl, rfl, rfl⟩
      · exact eqModY_refl b

theorem resolveStep_yExtra_le (s : ℚ) (hs : 0 ≤ s) (a b : LayoutEntry) :
    b.yExtra ≤ (resolveStep s a b).yExtra := by
  unfold resolveStep
  split
  · exact le_refl _
  · split
    · exact le_refl _
    · dsimp only
      split
      · rename_i h
        dsimp only
        linarith
      · exact le_refl _

theorem resolveStep_clears (s : ℚ) (hs : 0 ≤ s) (a b : LayoutEntry)
    (hov : overlapsH a b) : bandEndY a ≤ bandStartY (resolveStep s a b) := by
  unfold resolveStep
  rw [if_neg (not_le.mpr hov.1), if_neg (not_le.mpr hov.2)]
  dsimp only
  split
  · rename_i h
    unfold bandEndY bandStartY
    dsimp only
    linarith
  · rename_i h
    push_neg at h
    unfold bandEndY bandStartY at *
    linarith

theorem resolveAgainst_eqModY (s : ℚ) (done : List (String × LayoutEntry))
    (b : LayoutEntry) : eqModY b (resolveAgainst s done b) := by
  unfold resolveAgainst
  induction done generalizing b with
  | nil => exact eqModY_refl b
  | cons a l ih => exact eqModY_trans (resolveStep_eqModY s a.2 b) (ih _)

theorem resolveAgainst_yExtra_le (s : ℚ) (hs : 0 ≤ s)
    (done : List (String × LayoutEntry)) (b : LayoutEntry) :
    b.yExtra ≤ (resolveAgainst s done b).yExtra := by
  unfold resolveAgainst
  induction done generalizing b with
  | nil => exact le_refl _
  | cons a l ih =>
    exact le_trans (resolveStep_yExtra_le s hs a.2 b) (ih _)

theorem bandStartY_le_resolveAgainst (s : ℚ) (hs : 0 ≤ s)
    (done : List (String × LayoutEntry)) (b : LayoutEntry) :
    bandStartY b ≤ bandStartY (resolveAgainst s done b) := by
  have h1 := resolveAgainst_yExtra_le s hs done b
  have h2 := (resolveAgainst_eqModY s done b).2.2.2.2.1
  unfold bandStartY
  rw [← h2]
  linarith

theorem resolveAgainst_clears (s : ℚ) (hs : 0 ≤ s)
    (done : List (String × LayoutEntry)) (b : LayoutEntry) :
    ∀ a ∈ done, overlapsH a.2 b → bandEndY a.2 ≤ bandStartY (resolveAgainst s done b) := by
  induction done generalizing b with
  | nil => intro a ha; simp at ha
  | cons p l ih =>
    intro a ha hov
    have hstep : resolveAgainst s (p :: l) b = resolveAgainst s l (resolveStep s p.2 b) := rfl
    rcases List.mem_cons.mp ha with rfl | ha
    · rw [hstep]
      exact le_trans (resolveStep_clears s hs a.2 b hov)
        (bandStartY_le_resolveAgainst s hs l _)
    · rw [hstep]
      have hov2 : overlapsH a.2 (resolveStep s p.2 b) :=
        (overlapsH_congr_right (resolveStep_eqModY s p.2 b)).mp hov
      exact ih _ a ha hov2

/-- The post-sweep stacking invariant: any earlier entry that horizontally
overlaps a later one has its band end at or above the later one's band
start. -/
def stacked (l : List (String × LayoutEntry)) : Prop :=
  List.Pairwise (fun x y => overlapsH x.2 y.2 → bandEndY x.2 ≤ bandStartY y.2) l

theorem sweepGo_stacked (s : ℚ) (hs : 0 ≤ s) :
    ∀ rest done, stacked done → stacked (sweepGo s done rest) := by
  intro rest
  induction rest with
  | nil => intro done h; exact h
  | cons e rest ih =>
    intro done hdone
    apply ih
    unfold stacked at *
    rw [List.pairwise_append]
    refine ⟨hdone, List.pairwise_singleton _ _, ?_⟩
    intro a ha b hb
    rw [List.mem_singleton] at hb
    subst hb
    intro hov
    have hov2 : overlapsH a.2 e.2 :=
      (overlapsH_congr_right (resolveAgainst_eqModY s done e.2)).mpr hov
    exact resolveAgainst_clears s hs done e.2 a ha hov2

theorem sweepSide_stacked (s : ℚ) (hs : 0 ≤ s) (l : List (String × LayoutEntry)) :
    stacked (sweepSide s l) :=
  sweepGo_stacked s hs l [] List.Pairwise.nil

theorem sweepGo_append (s : ℚ) :
    ∀ rest done, ∃ res, sweepGo s done rest = done ++ res ∧
      List.Forall₂ (fun x y : String × LayoutEntry => x.1 = y.1 ∧ eqModY x.2 y.2) rest res := by
  intro rest
  induction rest with
  | nil => intro done; exact ⟨[], by simp [sweepGo], List.Forall₂.nil⟩
  | cons e rest ih =>
    intro done
    obtain ⟨res, heq, hf⟩ := ih (done ++ [(e.1, resolveAgainst s done e.2)])
    refine ⟨(e.1, resolveAgainst s done e.2) :: res, ?_, ?_⟩
    · show sweepGo s (done ++ [(e.1, resolveAgainst s done e.2)]) rest = _
      rw [heq, List.append_assoc]
      rfl
    · exact List.Forall₂.cons ⟨rfl, resolveAgainst_eqModY s done e.2⟩ hf

theorem sweepSide_corr (s : ℚ) (l : List (String × LayoutEntry)) :
    List.Forall₂ (fun x y : String × LayoutEntry => x.1 = y.1 ∧ eqModY x.2 y.2)
      l (sweepSide s l) := by
  obtain ⟨res, heq, hf⟩ := sweepGo_append s l []
  unfold sweepSide
  rw [heq]
  simpa using hf

theorem forall2_mem_right {α β : Type} {R : α → β → Prop} :
    ∀ {l1 : List α} {l2 : List β}, List.Forall₂ R l1 l2 → ∀ b ∈ l2, ∃ a ∈ l1, R a b := by
  intro l1 l2 h
  induction h with
  | nil => intro b hb; simp at hb
  | cons hr _ ih =>
    intro b hb
    rcases List.mem_cons.mp hb with rfl | hb
    · exact ⟨_, by simp, hr⟩
    · obtain ⟨a, ha, har⟩ := ih b hb
      exact ⟨a, by simp [ha], har⟩

theorem forall2_mem_left {α β : Type} {R : α → β → Prop} :
    ∀ {l1 : List α} {l2 : List β}, List.Forall₂ R l1 l2 → ∀ a ∈ l1, ∃ b ∈ l2, R a b := by
  intro l1 l2 h
  induction h with
  | nil => intro a ha; simp at ha
  | cons hr _ ih =>
    intro a ha
    rcases List.mem_cons.mp ha with rfl | ha
    · exact ⟨_, by simp, hr⟩
    · obtain ⟨b, hb, hbr⟩ := ih a ha
      exact ⟨b, by simp [hb], hbr⟩

theorem sweepSide_mem_side (s : ℚ) (l : List (String × LayoutEntry)) (v : ℤ)
    (hl : ∀ x ∈ l, x.2.side = v) : ∀ y ∈ sweepSide s l, y.2.side = v := by
  intro y hy
  obtain ⟨x, hx, hxy⟩ := forall2_mem_right (sweepSide_corr s l) y hy
  rw [← hxy.2.1]
  exact hl x hx

/-! ## The stacking invariant at the level of the full layout -/

/-- The no-intra-side-overlap property over a layout entry list: whenever
an earlier entry and a later entry lie on the same side and their label
intervals overlap horizontally, the later entry's band starts at or below
the earlier one's band end. Within each side the layout list is ordered
by label center x, so list order is center-x order. -/
def stackDisjoint (l : List (String × LayoutEntry)) : Prop :=
  List.Pairwise (fun x y => x.2.side = y.2.side → overlapsH x.2 y.2 →
    bandEndY x.2 ≤ bandStartY y.2) l

theorem mem_sortFilter_side (entries : List (String × LayoutEntry)) (v : ℤ) :
    ∀ x ∈ sortByKey (fun e : String × LayoutEntry => e.2.cx)
      (entries.filter fun e : String × LayoutEntry => decide (e.2.side = v)),
      x.2.side = v := by
  intro x hx
  have hx2 := (sortByKey_perm (fun e : String × LayoutEntry => e.2.cx) _).mem_iff.mp hx
  have hx3 := List.mem_filter.mp hx2
  exact of_decide_eq_true hx3.2

theorem entriesBySide_stackDisjoint (s : ℚ) (hs : 0 ≤ s)
    (entries : List (String × LayoutEntry)) :
    stackDisjoint (entriesBySide s entries) := by
  unfold entriesBySide stackDisjoint
  rw [List.pairwise_append]
  refine ⟨(sweepSide_stacked s hs _).imp (fun h _ hov => h hov),
    (sweepSide_stacked s hs _).imp (fun h _ hov => h hov), ?_⟩
  intro a ha b hb hside
  have ha2 : a.2.side = -1 :=
    sweepSide_mem_side s _ (-1) (mem_sortFilter_side entries (-1)) a ha
  have hb2 : b.2.side = 1 :=
    sweepSide_mem_side s _ 1 (mem_sortFilter_side entries 1) b hb
  rw [ha2, hb2] at hside
  exact absurd hside (by decide)

/-- Agreement on every field the stacking invariant mentions. -/
def eqStackFields (a b : LayoutEntry) : Prop :=
  a.side = b.side ∧ a.cx = b.cx ∧ a.halfW = b.halfW ∧ a.bandStart = b.bandStart ∧
    a.yExtra = b.yExtra ∧ a.bandHeight = b.bandHeight

theorem rebindMarker_pres (W : ℚ) (e : String × LayoutEntry) :
    eqStackFields e.2 (rebindMarker W e).2 := by
  unfold rebindMarker
  split
  · exact ⟨rfl, rfl, rfl, rfl, rfl, rfl⟩
  · exact ⟨rfl, rfl, rfl, rfl, rfl, rfl⟩

theorem overlapsH_congr_stack {a b a' b' : LayoutEntry} (ha : eqStackFields a a')
    (hb : eqStackFields b b') : overlapsH a b ↔ overlapsH a' b' := by
  unfold overlapsH
  rw [ha.2.1, ha.2.2.1, hb.2.1, hb.2.2.1]

theorem bandEndY_congr {a a' : LayoutEntry} (h : eqStackFields a a') :
    bandEndY a = bandEndY a' := by
  unfold bandEndY
  rw [h.2.2.2.1, h.2.2.2.2.1, h.2.2.2.2.2]

theorem bandStartY_congr {a a' : LayoutEntry} (h : eqStackFields a a') :
    bandStartY a = bandStartY a' := by
  unfold bandStartY
  rw [h.2.2.2.1, h.2.2.2.2.1]

theorem sideEq_congr {a b a' b' : LayoutEntry} (ha : eqStackFields a a')
    (hb : eqStackFields b b') : (a.side = b.side) ↔ (a'.side = b'.side) := by
  rw [ha.1, hb.1]

theorem stackDisjoint_map (l : List (String × LayoutEntry))
    (f : String × LayoutEntry → String × LayoutEntry)
    (hf : ∀ e ∈ l, eqStackFields e.2 (f e).2) (h : stackDisjoint l) :
    stackDisjoint (l.map f) := by
  unfold stackDisjoint at *
  rw [List.pairwise_map]
  apply List.Pairwise.imp_of_mem ?_ h
  intro a b ha hb hp hside hov
  rw [← bandEndY_congr (hf a ha), ← bandStartY_congr (hf b hb)]
  exact hp ((sideEq_congr (hf a ha) (hf b hb)).mpr hside)
    ((overlapsH_congr_stack (hf a ha) (hf b hb)).mpr hov)

theorem applyShift_nil (s : ℚ) (e : String × LayoutEntry) : applyShift s [] e = e := by
  unfold applyShift
  split
  · rfl
  · rfl

theorem sweepSide_x1 (s : ℚ) (l : List (String × LayoutEntry))
    (hl : ∀ x ∈ l, x.2.x1 = none) : ∀ y ∈ sweepSide s l, y.2.x1 = none := by
  intro y hy
  obtain ⟨x, hx, hxy⟩ := forall2_mem_right (sweepSide_corr s l) y hy
  rw [← hxy.2.2.2.2.2.2.2.1]
  exact hl x hx

theorem entriesBySide_x1 (s : ℚ) (entries : List (String × LayoutEntry))
    (h : ∀ e ∈ entries, e.2.x1 = none) :
    ∀ e ∈ entriesBySide s entries, e.2.x1 = none := by
  have key : ∀ v : ℤ, ∀ x ∈ sortByKey (fun e : String × LayoutEntry => e.2.cx)
      (entries.filter fun e : String × LayoutEntry => decide (e.2.side = v)),
      x.2.x1 = none := by
    intro v x hx
    have hx2 := (sortByKey_perm (fun e : String × LayoutEntry => e.2.cx) _).mem_iff.mp hx
    exact h x (List.mem_filter.mp hx2).1
  intro e he
  rcases List.mem_append.mp he with he2 | he2
  · exact sweepSide_x1 s _ (key (-1)) e he2
  · exact sweepSide_x1 s _ (key 1) e he2

theorem layoutCore_stackDisjoint (now : ℚ) (cfg : Config) (xS : ℚ → ℚ)
    (fmt : ℚ → String) (sorted : List TimelineItem) (hs : 0 ≤ cfg.contentScale)
    (hmode : cfg.exportMode = true ∨
      ∀ e ∈ initialEntries now cfg xS fmt sorted, e.2.x1 = none) :
    stackDisjoint (layoutCore now cfg xS fmt sorted) := by
  unfold layoutCore
  dsimp only
  have hafter := entriesBySide_stackDisjoint cfg.contentScale hs
    (initialEntries now cfg xS fmt sorted)
  by_cases hexp : cfg.exportMode = true
  · rw [hexp]
    by_cases hslice : 1 < cfg.totalSlices
    · rw [if_pos ⟨rfl, hslice⟩]
      rw [if_neg (by simp : ¬(true = false))]
      exact stackDisjoint_map _ _ (fun e _ => rebindMarker_pres cfg.canvasWidth e) hafter
    · rw [if_neg (fun hc => hslice hc.2)]
      rw [if_neg (by simp : ¬(true = false))]
      exact hafter
  · have hexp2 : cfg.exportMode = false := by
      revert hexp
      cases cfg.exportMode <;> simp
    rcases hmode with hmode | hnone
    · exact absurd hmode hexp
    · rw [hexp2]
      rw [if_neg (by simp : ¬(false = true ∧ 1 < cfg.totalSlices))]
      rw [if_pos rfl]
      have hbars : (entriesBySide cfg.contentScale
          (initialEntries now cfg xS fmt sorted)).filter
            (fun e => e.2.x1.isSome) = [] := by
        rw [List.filter_eq_nil_iff]
        intro e he
        rw [entriesBySide_x1 cfg.contentScale _ hnone e he]
        simp
      rw [hbars]
      exact stackDisjoint_map _ _
        (fun e _ => by rw [applyShift_nil]; exact ⟨rfl, rfl, rfl, rfl, rfl, rfl⟩) hafter

/-- No period item occurs in the list. -/
def periodFree (items : List TimelineItem) : Prop :=
  ∀ id label sd ed, TimelineItem.period id label sd ed ∉ items

def notPeriodB : TimelineItem → Bool
  | TimelineItem.period _ _ _ _ => false
  | _ => true

instance (items : List TimelineItem) : Decidable (periodFree items) := by
  refine decidable_of_iff (items.all notPeriodB = true) ?_
  rw [List.all_eq_true]
  constructor
  · intro h id label sd ed hmem
    have h2 := h _ hmem
    simp [notPeriodB] at h2
  · intro h i hmem
    cases i with
    | event id label d => rfl
    | note id label d => rfl
    | period id label sd ed => exact absurd hmem (h id label sd ed)

theorem initialEntries_x1_none (now : ℚ) (cfg : Config) (xS : ℚ → ℚ)
    (fmt : ℚ → String) (sorted : List TimelineItem) (h : periodFree sorted) :
    ∀ e ∈ initialEntries now cfg xS fmt sorted, e.2.x1 = none := by
  intro e he
  unfold initialEntries at he
  rcases List.mem_map.mp he with ⟨⟨idx, item⟩, hmem, rfl⟩
  have hget := (List.mem_enumFrom hmem).2.2
  have himem : item ∈ sorted := by
    rw [hget]
    exact List.getElem_mem _
  cases item with
  | event id label d => rfl
  | note id label d => rfl
  | period id label sd ed => exact absurd himem (h id label sd ed)


/-! ## Claim C4 -/

/-- formatDate of any instant within the epoch day. -/
theorem formatDate_day0 (t : ℚ) (h0 : 0 ≤ t) (h1 : t < 86400000) :
    formatDate t = ("Jan 1, 1970") := by
  have hd : daysFromMs t = 0 := by
    unfold daysFromMs
    rw [Int.floor_eq_zero_iff]
    constructor
    · positivity
    · rw [div_lt_one (by norm_num)]
      exact h1
  unfold formatDate civilOf
  rw [hd]
  decide

/-- C4 (amended). After the per-side collision sweep, any two same-side
entries whose label intervals overlap horizontally have disjoint vertical
bands: the later one in center-x order starts at or below the earlier
one's band end. This survives to the final layout map in export mode
(where the sweep is followed only by marker rebinding) and in non-export
mode when the item list contains no periods (so the period-bar avoidance
pass moves no label). The claim as stated, about the layout after the
full placement pass in every mode, fails: in non-export mode the
period-bar avoidance pass can shift a label center back into collision
without re-running the sweep (see the counterexample). -/
theorem c4_no_intra_side_overlap (now : ℚ) (cfg : Config) (items : List TimelineItem)
    (hs : 0 ≤ cfg.contentScale)
    (hmode : cfg.exportMode = true ∨ periodFree items) :
    stackDisjoint (layoutEntries now cfg items) := by
  unfold layoutEntries
  apply layoutCore_stackDisjoint _ _ _ _ _ hs
  rcases hmode with h | h
  · exact Or.inl h
  · refine Or.inr (initialEntries_x1_none _ _ _ _ _ ?_)
    intro id label sd ed hmem
    exact h id label sd ed ((sortByKey_perm (getItemDate now) items).mem_iff.mp hmem)

/-- The full layout of the four-item counterexample instance: three
events A (instant 0), D (64), B (130) and a period P (180 to 800) on a
1200-wide single-slice canvas in non-export mode, where the linear scale
maps instant t to pixel 200 + t. The period bar spans pixels 380 to 1000;
B's label (half width 62, raw position 330) overlaps the bar with its
marker to the left of it, so the period-bar avoidance pass shifts B's
center left to 380 - 62 - 4 = 314, back into horizontal overlap with A's
label (center 200, half width 62) on the same side at the same band with
both vertical offsets still zero. -/
theorem fourItemsLayout_eval :
    layoutEntries 0 ⟨1, false, 1, 1200, 800, false, false, false⟩
      [TimelineItem.event ("a") ("A") (some 0), TimelineItem.event ("d") ("D") (some 64),
       TimelineItem.event ("b") ("B") (some 130),
       TimelineItem.period ("p") ("P") (some 180) (some 800)] =
      [(("a"), ⟨-1, 0, 200, 200, 62, 110, 55, none, none⟩),
       (("b"), ⟨-1, 0, 330, 314, 62, 110, 55, none, none⟩),
       (("p"), ⟨-1, 139, 690, 690, 318, 36, 40, some 380, some 1000⟩),
       (("d"), ⟨1, 0, 264, 264, 62, 110, 55, none, none⟩)] := by
  have f0 : formatDate 0 = ("Jan 1, 1970") := formatDate_day0 0 (by norm_num) (by norm_num)
  have f1 : formatDate 64 = ("Jan 1, 1970") := formatDate_day0 64 (by norm_num) (by norm_num)
  have f2 : formatDate 130 = ("Jan 1, 1970") := formatDate_day0 130 (by norm_num) (by norm_num)
  have f3 : formatDate 180 = ("Jan 1, 1970") := formatDate_day0 180 (by norm_num) (by norm_num)
  have f4 : formatDate 800 = ("Jan 1, 1970") := formatDate_day0 800 (by norm_num) (by norm_num)
  have hmm : getMinMaxDates 0
      [TimelineItem.event ("a") ("A") (some 0), TimelineItem.event ("d") ("D") (some 64),
       TimelineItem.event ("b") ("B") (some 130),
       TimelineItem.period ("p") ("P") (some 180) (some 800)] = (-80, 880) := by
    norm_num [getMinMaxDates, itemMinMaxDates, parseDate]
    exact fun h => absurd h (List.cons_ne_nil _ _)
  have hx : ∀ t : ℚ, xScaleOf 0 ⟨1, false, 1, 1200, 800, false, false, false⟩
      [TimelineItem.event ("a") ("A") (some 0), TimelineItem.event ("d") ("D") (some 64),
       TimelineItem.event ("b") ("B") (some 130),
       TimelineItem.period ("p") ("P") (some 180) (some 800)] t = 200 + t := by
    intro t
    norm_num [xScaleOf, hmm, actualWidth, linearScale]
    ring
  norm_num [layoutEntries, layoutCore, initialEntries, mkEntry, sortByKey, insSorted,
    getItemDate, parseDate, hx, fmtOf, estimateTextWidth, entriesBySide,
    sweepSide, sweepGo, resolveAgainst, resolveStep, applyShift, shiftStep, rebindMarker,
    minPeriodWidth, snap, List.enum, List.enumFrom, f0, f1, f2, f3, f4,
    (show ("Jan 1, 1970").length = 11 from rfl),
    (show (" - ").length = 3 from rfl),
    (show ("A").length = 1 from rfl), (show ("B").length = 1 from rfl),
    (show ("D").length = 1 from rfl), (show ("P").length = 1 from rfl)]

/-- Counterexample to C4 as stated: in the four-item instance the final
placement holds two same-side entries (ids a and b) whose label intervals
[138, 262] and [252, 376] overlap horizontally while both sit in the
identical band [110, 165] with vertical offset 0 — their bands are not
disjoint, so the post-placement no-intra-side-overlap property fails. -/
theorem c4_counterexample :
    ¬ stackDisjoint (layoutEntries 0 ⟨1, false, 1, 1200, 800, false, false, false⟩
      [TimelineItem.event ("a") ("A") (some 0), TimelineItem.event ("d") ("D") (some 64),
       TimelineItem.event ("b") ("B") (some 130),
       TimelineItem.period ("p") ("P") (some 180) (some 800)]) := by
  rw [fourItemsLayout_eval]
  intro h
  have h01 := (List.pairwise_cons.mp h).1
    ((("b"), ⟨-1, 0, 330, 314, 62, 110, 55, none, none⟩)) (List.mem_cons_self _ _)
  have hcl := h01 rfl (by norm_num [overlapsH])
  norm_num [bandEndY, bandStartY] at hcl

set_option maxHeartbeats 2000000 in
/-- The layout of five stacked events in export mode: the time-sorted
indices alternate sides, all five labels are 100 characters wide
(half width 446) so every same-side pair overlaps horizontally, and the
sweep stacks them with strictly increasing vertical offsets. -/
theorem fiveEventsLayout_eval :
    (layoutEntries 0 ⟨1, true, 1, 1200, 800, false, false, false⟩
      [TimelineItem.event ("e0") ("XXXXXXXXXXXXXXXXXXXXXXXXXXXXXXXXXXXXXXXXXXXXXXXXXXXXXXXXXXXXXXXXXXXXXXXXXXXXXXXXXXXXXXXXXXXXXXXXXXXX") (some 0),
       TimelineItem.event ("e1") ("XXXXXXXXXXXXXXXXXXXXXXXXXXXXXXXXXXXXXXXXXXXXXXXXXXXXXXXXXXXXXXXXXXXXXXXXXXXXXXXXXXXXXXXXXXXXXXXXXXXX") (some 1),
       TimelineItem.event ("e2") ("XXXXXXXXXXXXXXXXXXXXXXXXXXXXXXXXXXXXXXXXXXXXXXXXXXXXXXXXXXXXXXXXXXXXXXXXXXXXXXXXXXXXXXXXXXXXXXXXXXXX") (some 2),
       TimelineItem.event ("e3") ("XXXXXXXXXXXXXXXXXXXXXXXXXXXXXXXXXXXXXXXXXXXXXXXXXXXXXXXXXXXXXXXXXXXXXXXXXXXXXXXXXXXXXXXXXXXXXXXXXXXX") (some 3),
       TimelineItem.event ("e4") ("XXXXXXXXXXXXXXXXXXXXXXXXXXXXXXXXXXXXXXXXXXXXXXXXXXXXXXXXXXXXXXXXXXXXXXXXXXXXXXXXXXXXXXXXXXXXXXXXXXXX") (some 4)]).map
        (fun e => (e.1, e.2.side, e.2.yExtra)) =
      [(("e0"), -1, 0), (("e2"), -1, 65), (("e4"), -1, 130),
       (("e1"), 1, 0), (("e3"), 1, 65)] := by
  have f0 : formatDate 0 = ("Jan 1, 1970") := formatDate_day0 0 (by norm_num) (by norm_num)
  have f1 : formatDate 1 = ("Jan 1, 1970") := formatDate_day0 1 (by norm_num) (by norm_num)
  have f2 : formatDate 2 = ("Jan 1, 1970") := formatDate_day0 2 (by norm_num) (by norm_num)
  have f3 : formatDate 3 = ("Jan 1, 1970") := formatDate_day0 3 (by norm_num) (by norm_num)
  have f4 : formatDate 4 = ("Jan 1, 1970") := formatDate_day0 4 (by norm_num) (by norm_num)
  have hmm : getMinMaxDates 0
      [TimelineItem.event ("e0") ("XXXXXXXXXXXXXXXXXXXXXXXXXXXXXXXXXXXXXXXXXXXXXXXXXXXXXXXXXXXXXXXXXXXXXXXXXXXXXXXXXXXXXXXXXXXXXXXXXXXX") (some 0),
       TimelineItem.event ("e1") ("XXXXXXXXXXXXXXXXXXXXXXXXXXXXXXXXXXXXXXXXXXXXXXXXXXXXXXXXXXXXXXXXXXXXXXXXXXXXXXXXXXXXXXXXXXXXXXXXXXXX") (some 1),
       TimelineItem.event ("e2") ("XXXXXXXXXXXXXXXXXXXXXXXXXXXXXXXXXXXXXXXXXXXXXXXXXXXXXXXXXXXXXXXXXXXXXXXXXXXXXXXXXXXXXXXXXXXXXXXXXXXX") (some 2),
       TimelineItem.event ("e3") ("XXXXXXXXXXXXXXXXXXXXXXXXXXXXXXXXXXXXXXXXXXXXXXXXXXXXXXXXXXXXXXXXXXXXXXXXXXXXXXXXXXXXXXXXXXXXXXXXXXXX") (some 3),
       TimelineItem.event ("e4") ("XXXXXXXXXXXXXXXXXXXXXXXXXXXXXXXXXXXXXXXXXXXXXXXXXXXXXXXXXXXXXXXXXXXXXXXXXXXXXXXXXXXXXXXXXXXXXXXXXXXX") (some 4)] = (-2/5, 22/5) := by
    norm_num [getMinMaxDates, itemMinMaxDates, parseDate]
    exact fun h => absurd h (List.cons_ne_nil _ _)
  have hx : ∀ t : ℚ, xScaleOf 0 ⟨1, true, 1, 1200, 800, false, false, false⟩
      [TimelineItem.event ("e0") ("XXXXXXXXXXXXXXXXXXXXXXXXXXXXXXXXXXXXXXXXXXXXXXXXXXXXXXXXXXXXXXXXXXXXXXXXXXXXXXXXXXXXXXXXXXXXXXXXXXXX") (some 0),
       TimelineItem.event ("e1") ("XXXXXXXXXXXXXXXXXXXXXXXXXXXXXXXXXXXXXXXXXXXXXXXXXXXXXXXXXXXXXXXXXXXXXXXXXXXXXXXXXXXXXXXXXXXXXXXXXXXX") (some 1),
       TimelineItem.event ("e2") ("XXXXXXXXXXXXXXXXXXXXXXXXXXXXXXXXXXXXXXXXXXXXXXXXXXXXXXXXXXXXXXXXXXXXXXXXXXXXXXXXXXXXXXXXXXXXXXXXXXXX") (some 2),
       TimelineItem.event ("e3") ("XXXXXXXXXXXXXXXXXXXXXXXXXXXXXXXXXXXXXXXXXXXXXXXXXXXXXXXXXXXXXXXXXXXXXXXXXXXXXXXXXXXXXXXXXXXXXXXXXXXX") (some 3),
       TimelineItem.event ("e4") ("XXXXXXXXXXXXXXXXXXXXXXXXXXXXXXXXXXXXXXXXXXXXXXXXXXXXXXXXXXXXXXXXXXXXXXXXXXXXXXXXXXXXXXXXXXXXXXXXXXXX") (some 4)] t = 200 + 200 * t := by
    intro t
    norm_num [xScaleOf, hmm, actualWidth, linearScale]
    ring
  norm_num [layoutEntries, layoutCore, initialEntries, mkEntry, sortByKey, insSorted,
    getItemDate, parseDate, hx, fmtOf, estimateTextWidth, entriesBySide,
    sweepSide, sweepGo, resolveAgainst, resolveStep, applyShift, shiftStep, rebindMarker,
    minPeriodWidth, snap, List.enum, List.enumFrom, f0, f1, f2, f3, f4,
    (show ("Jan 1, 1970").length = 11 from rfl),
    (show (("XXXXXXXXXXXXXXXXXXXXXXXXXXXXXXXXXXXXXXXXXXXXXXXXXXXXXXXXXXXXXXXXXXXXXXXXXXXXXXXXXXXXXXXXXXXXXXXXXXXX" : String)).length = 100 from rfl)]

/-- Witness for C4: the amended theorem applied to the five-event export
instance, plus the cascading-collision scenario: the three top-side
events end with strictly increasing vertical offsets 0 < 65 < 130. -/
theorem c4_no_intra_side_overlap_witness :
    stackDisjoint (layoutEntries 0 ⟨1, true, 1, 1200, 800, false, false, false⟩
      [TimelineItem.event ("e0") ("XXXXXXXXXXXXXXXXXXXXXXXXXXXXXXXXXXXXXXXXXXXXXXXXXXXXXXXXXXXXXXXXXXXXXXXXXXXXXXXXXXXXXXXXXXXXXXXXXXXX") (some 0),
       TimelineItem.event ("e1") ("XXXXXXXXXXXXXXXXXXXXXXXXXXXXXXXXXXXXXXXXXXXXXXXXXXXXXXXXXXXXXXXXXXXXXXXXXXXXXXXXXXXXXXXXXXXXXXXXXXXX") (some 1),
       TimelineItem.event ("e2") ("XXXXXXXXXXXXXXXXXXXXXXXXXXXXXXXXXXXXXXXXXXXXXXXXXXXXXXXXXXXXXXXXXXXXXXXXXXXXXXXXXXXXXXXXXXXXXXXXXXXX") (some 2),
       TimelineItem.event ("e3") ("XXXXXXXXXXXXXXXXXXXXXXXXXXXXXXXXXXXXXXXXXXXXXXXXXXXXXXXXXXXXXXXXXXXXXXXXXXXXXXXXXXXXXXXXXXXXXXXXXXXX") (some 3),
       TimelineItem.event ("e4") ("XXXXXXXXXXXXXXXXXXXXXXXXXXXXXXXXXXXXXXXXXXXXXXXXXXXXXXXXXXXXXXXXXXXXXXXXXXXXXXXXXXXXXXXXXXXXXXXXXXXX") (some 4)]) ∧
    (layoutEntries 0 ⟨1, true, 1, 1200, 800, false, false, false⟩
      [TimelineItem.event ("e0") ("XXXXXXXXXXXXXXXXXXXXXXXXXXXXXXXXXXXXXXXXXXXXXXXXXXXXXXXXXXXXXXXXXXXXXXXXXXXXXXXXXXXXXXXXXXXXXXXXXXXX") (some 0),
       TimelineItem.event ("e1") ("XXXXXXXXXXXXXXXXXXXXXXXXXXXXXXXXXXXXXXXXXXXXXXXXXXXXXXXXXXXXXXXXXXXXXXXXXXXXXXXXXXXXXXXXXXXXXXXXXXXX") (some 1),
       TimelineItem.event ("e2") ("XXXXXXXXXXXXXXXXXXXXXXXXXXXXXXXXXXXXXXXXXXXXXXXXXXXXXXXXXXXXXXXXXXXXXXXXXXXXXXXXXXXXXXXXXXXXXXXXXXXX") (some 2),
       TimelineItem.event ("e3") ("XXXXXXXXXXXXXXXXXXXXXXXXXXXXXXXXXXXXXXXXXXXXXXXXXXXXXXXXXXXXXXXXXXXXXXXXXXXXXXXXXXXXXXXXXXXXXXXXXXXX") (some 3),
       TimelineItem.event ("e4") ("XXXXXXXXXXXXXXXXXXXXXXXXXXXXXXXXXXXXXXXXXXXXXXXXXXXXXXXXXXXXXXXXXXXXXXXXXXXXXXXXXXXXXXXXXXXXXXXXXXXX") (some 4)]).map
        (fun e => (e.1, e.2.side, e.2.yExtra)) =
      [(("e0"), -1, 0), (("e2"), -1, 65), (("e4"), -1, 130),
       (("e1"), 1, 0), (("e3"), 1, 65)] ∧
    ((0 : ℚ) < 65 ∧ (65 : ℚ) < 130) :=
  ⟨c4_no_intra_side_overlap 0 _ _ (by norm_num) (Or.inl rfl),
    fiveEventsLayout_eval, by norm_num⟩


/-! ## Claim C2 -/

/-- The snap loop returns the snapped position of the first straddled
boundary: if no boundary with index in [j, i) is straddled and boundary i
is (with i below the slice count), the loop run from j returns the
snapped value at boundary i. -/
theorem snapGo_eq (W x hw : ℚ) (total : ℕ) (i : ℕ) (hi : i < total)
    (hstrad : x - hw < (i : ℚ) * W ∧ (i : ℚ) * W < x + hw)
    (hfirst : ∀ j : ℕ, 1 ≤ j → j < i → ¬(x - hw < (j : ℚ) * W ∧ (j : ℚ) * W < x + hw)) :
    ∀ fuel j, 1 ≤ j → j ≤ i → total ≤ fuel + j → snapGo W x hw total fuel j =
      if (i : ℚ) * W - (x - hw) < x + hw - (i : ℚ) * W then (i : ℚ) * W - hw - 4
      else (i : ℚ) * W + hw + 4 := by
  intro fuel
  induction fuel with
  | zero => intro j hj1 hji hfuel; omega
  | succ fuel ih =>
    intro j hj1 hji hfuel
    simp only [snapGo]
    rw [if_pos (show j < total by omega)]
    by_cases hb : x - hw < (j : ℚ) * W ∧ (j : ℚ) * W < x + hw
    · have hji2 : j = i := by
        by_contra hne
        exact hfirst j hj1 (lt_of_le_of_ne hji hne) hb
      subst hji2
      rw [if_pos hb]
    · rw [if_neg hb]
      have hlt : j < i := by
        rcases lt_or_eq_of_le hji with h | h
        · exact h
        · subst h
          exact absurd hstrad hb
      exact ih (j + 1) (by omega) (by omega) (by omega)

/-- C2 (amended). In export mode with avoidSplit enabled and more than
one slice, an item whose label interval strictly straddles the first
straddled slide boundary B = i * canvasWidth is snapped fully onto one
side of B with a clearance of exactly 4 pixels: onto the right side when
the center is at or left of B, onto the left side when the center is
strictly right of B. In both cases this is the side requiring the larger
center displacement whenever the center is strictly off the boundary (the
original claim said the smaller side; the comparison in the code selects
the opposite side). -/
theorem c2_slide_snap (cfg : Config) (x hw : ℚ) (i : ℕ)
    (hav : cfg.avoidSplit = true) (hexp : cfg.exportMode = true)
    (hts : 1 < cfg.totalSlices) (hi1 : 1 ≤ i) (hi2 : i < cfg.totalSlices)
    (hstrad : x - hw < (i : ℚ) * cfg.canvasWidth ∧
      (i : ℚ) * cfg.canvasWidth < x + hw)
    (hfirst : ∀ j : ℕ, 1 ≤ j → j < i →
      ¬(x - hw < (j : ℚ) * cfg.canvasWidth ∧ (j : ℚ) * cfg.canvasWidth < x + hw)) :
    (x ≤ (i : ℚ) * cfg.canvasWidth →
      snap cfg x hw = (i : ℚ) * cfg.canvasWidth + hw + 4 ∧
      (i : ℚ) * cfg.canvasWidth + 4 ≤ snap cfg x hw - hw ∧
      x - ((i : ℚ) * cfg.canvasWidth - hw - 4) ≤ snap cfg x hw - x) ∧
    ((i : ℚ) * cfg.canvasWidth < x →
      snap cfg x hw = (i : ℚ) * cfg.canvasWidth - hw - 4 ∧
      snap cfg x hw + hw ≤ (i : ℚ) * cfg.canvasWidth - 4 ∧
      ((i : ℚ) * cfg.canvasWidth + hw + 4) - x < x - snap cfg x hw) := by
  have hsnap : snap cfg x hw =
      if (i : ℚ) * cfg.canvasWidth - (x - hw) < x + hw - (i : ℚ) * cfg.canvasWidth
      then (i : ℚ) * cfg.canvasWidth - hw - 4
      else (i : ℚ) * cfg.canvasWidth + hw + 4 := by
    unfold snap
    rw [if_neg (by simp [hav, hexp]; omega)]
    exact snapGo_eq cfg.canvasWidth x hw cfg.totalSlices i hi2 hstrad hfirst
      cfg.totalSlices 1 (by omega) hi1 (by omega)
  set B := (i : ℚ) * cfg.canvasWidth
  constructor
  · intro hxB
    have hcond : ¬ (B - (x - hw) < x + hw - B) := by push_neg; linarith
    rw [hsnap, if_neg hcond]
    refine ⟨rfl, by linarith, by linarith⟩
  · intro hxB
    have hcond : B - (x - hw) < x + hw - B := by linarith
    rw [hsnap, if_pos hcond]
    refine ⟨rfl, by linarith, by linarith⟩

/-- Counterexample to C2 as stated, at the claim's own concrete instance:
canvas width 1200, 3 slides, center 1195, half width 50. The label spans
[1145, 1245] and straddles the boundary 1200. The smaller-displacement
side is the left one (snapping to center 1146 displaces the center by 49,
snapping to 1254 displaces it by 59), yet snap returns 1254, placing the
label inside [1200, 2400] — the side that required the larger
displacement. -/
theorem c2_counterexample :
    snap ⟨1, true, 3, 1200, 800, false, true, false⟩ 1195 50 = 1254 ∧
    ((1254 : ℚ) - 1195 = 59 ∧ (1195 : ℚ) - 1146 = 49 ∧ (49 : ℚ) < 59) ∧
    ((1146 : ℚ) + 50 + 4 = 1200 ∧ ¬((1254 : ℚ) + 50 ≤ 1200)) := by
  refine ⟨?_, by norm_num, by norm_num⟩
  norm_num [snap, snapGo]

/-- Witness for C2 at the claim's concrete instance: boundary index 1 at
pixel 1200 with center 1195 at or left of it, so the snapped center is
1254 and the label interval [1204, 1304] lies entirely in the second
slide with clearance 4. -/
theorem c2_slide_snap_witness :
    snap ⟨1, true, 3, 1200, 800, false, true, false⟩ 1195 50 =
        (1 : ℚ) * 1200 + 50 + 4 ∧
      (1 : ℚ) * 1200 + 4 ≤ snap ⟨1, true, 3, 1200, 800, false, true, false⟩ 1195 50 - 50 ∧
      (1195 : ℚ) - ((1 : ℚ) * 1200 - 50 - 4) ≤
        snap ⟨1, true, 3, 1200, 800, false, true, false⟩ 1195 50 - 1195 :=
  (c2_slide_snap ⟨1, true, 3, 1200, 800, false, true, false⟩ 1195 50 1 rfl rfl
    (by norm_num) (by norm_num) (by norm_num) (by norm_num)
    (fun j hj1 hji => absurd (lt_of_le_of_lt hj1 hji) (by norm_num))).1 (by norm_num)


/-! ## Correspondence between the final layout and the initial entries -/

/-- The id, x1 and x2 components agree (every pipeline pass after initial
placement preserves them). -/
def presIdX (q p : String × LayoutEntry) : Prop :=
  q.1 = p.1 ∧ q.2.x1 = p.2.x1 ∧ q.2.x2 = p.2.x2

theorem presIdX_refl (q : String × LayoutEntry) : presIdX q q := ⟨rfl, rfl, rfl⟩

theorem presIdX_trans {a b c : String × LayoutEntry} (h1 : presIdX a b)
    (h2 : presIdX b c) : presIdX a c :=
  ⟨h1.1.trans h2.1, h1.2.1.trans h2.2.1, h1.2.2.trans h2.2.2⟩

theorem entriesBySide_mem_src (s : ℚ) (entries : List (String × LayoutEntry)) :
    ∀ p ∈ entriesBySide s entries, ∃ q ∈ entries, presIdX q p := by
  intro p hp
  rcases List.mem_append.mp hp with hp2 | hp2
  all_goals
    obtain ⟨x, hx, hxy⟩ := forall2_mem_right (sweepSide_corr s _) p hp2
  all_goals
    have hx2 := (sortByKey_perm (fun e : String × LayoutEntry => e.2.cx) _).mem_iff.mp hx
  all_goals
    exact ⟨x, (List.mem_filter.mp hx2).1,
      hxy.1, hxy.2.2.2.2.2.2.2.1, hxy.2.2.2.2.2.2.2.2⟩

theorem entriesBySide_mem_exists (s : ℚ) (entries : List (String × LayoutEntry))
    (hside : ∀ e ∈ entries, e.2.side = -1 ∨ e.2.side = 1) :
    ∀ q ∈ entries, ∃ p ∈ entriesBySide s entries, presIdX q p := by
  intro q hq
  rcases hside q hq with h | h
  · have hq2 : q ∈ entries.filter (fun e => decide (e.2.side = -1)) :=
      List.mem_filter.mpr ⟨hq, by simp [h]⟩
    have hq3 := (sortByKey_perm (fun e : String × LayoutEntry => e.2.cx) _).mem_iff.mpr hq2
    obtain ⟨p, hp, hqp⟩ := forall2_mem_left (sweepSide_corr s _) q hq3
    exact ⟨p, List.mem_append.mpr (Or.inl hp),
      hqp.1, hqp.2.2.2.2.2.2.2.1, hqp.2.2.2.2.2.2.2.2⟩
  · have hq2 : q ∈ entries.filter (fun e => decide (e.2.side = 1)) :=
      List.mem_filter.mpr ⟨hq, by simp [h]⟩
    have hq3 := (sortByKey_perm (fun e : String × LayoutEntry => e.2.cx) _).mem_iff.mpr hq2
    obtain ⟨p, hp, hqp⟩ := forall2_mem_left (sweepSide_corr s _) q hq3
    exact ⟨p, List.mem_append.mpr (Or.inr hp),
      hqp.1, hqp.2.2.2.2.2.2.2.1, hqp.2.2.2.2.2.2.2.2⟩

theorem shiftStep_x1x2 (s : ℚ) (ent p : LayoutEntry) :
    (shiftStep s ent p).x1 = ent.x1 ∧ (shiftStep s ent p).x2 = ent.x2 := by
  unfold shiftStep
  rcases p.x1 with _ | px1
  · exact ⟨rfl, rfl⟩
  · rcases p.x2 with _ | px2
    · exact ⟨rfl, rfl⟩
    · dsimp only
      split
      · split
        · split
          · exact ⟨rfl, rfl⟩
          · exact ⟨rfl, rfl⟩
        · split
          · exact ⟨rfl, rfl⟩
          · exact ⟨rfl, rfl⟩
      · exact ⟨rfl, rfl⟩

theorem foldl_shiftStep_x1x2 (s : ℚ) (bars : List (String × LayoutEntry))
    (ent : LayoutEntry) :
    (bars.foldl (fun ent p => shiftStep s ent p.2) ent).x1 = ent.x1 ∧
      (bars.foldl (fun ent p => shiftStep s ent p.2) ent).x2 = ent.x2 := by
  induction bars generalizing ent with
  | nil => exact ⟨rfl, rfl⟩
  | cons b l ih =>
    rw [List.foldl_cons]
    have h1 := shiftStep_x1x2 s ent b.2
    have h2 := ih (shiftStep s ent b.2)
    exact ⟨h2.1.trans h1.1, h2.2.trans h1.2⟩

theorem applyShift_pres (s : ℚ) (bars : List (String × LayoutEntry))
    (e : String × LayoutEntry) : presIdX e (applyShift s bars e) := by
  unfold applyShift
  split
  · exact presIdX_refl e
  · exact ⟨rfl, (foldl_shiftStep_x1x2 s bars e.2).1.symm,
      (foldl_shiftStep_x1x2 s bars e.2).2.symm⟩

theorem rebindMarker_presIdX (W : ℚ) (e : String × LayoutEntry) :
    presIdX e (rebindMarker W e) := by
  unfold rebindMarker
  split
  · exact ⟨rfl, rfl, rfl⟩
  · exact presIdX_refl e


theorem mkEntry_fst (now : ℚ) (cfg : Config) (xS : ℚ → ℚ) (fmt : ℚ → String)
    (idx : ℕ) (item : TimelineItem) :
    (mkEntry now cfg xS fmt idx item).1 = item.idOf := by
  cases item <;> rfl

theorem mkEntry_side (now : ℚ) (cfg : Config) (xS : ℚ → ℚ) (fmt : ℚ → String)
    (idx : ℕ) (item : TimelineItem) :
    (mkEntry now cfg xS fmt idx item).2.side = -1 ∨
      (mkEntry now cfg xS fmt idx item).2.side = 1 := by
  cases item with
  | event id label d =>
    by_cases h : idx % 2 = 0 <;> simp [mkEntry, h]
  | period id label sd ed => simp [mkEntry]
  | note id label d =>
    by_cases h : idx % 2 = 0 <;> simp [mkEntry, h]

theorem initialEntries_side (now : ℚ) (cfg : Config) (xS : ℚ → ℚ) (fmt : ℚ → String)
    (sorted : List TimelineItem) :
    ∀ e ∈ initialEntries now cfg xS fmt sorted, e.2.side = -1 ∨ e.2.side = 1 := by
  intro e he
  rcases List.mem_map.mp he with ⟨⟨idx, item⟩, _, rfl⟩
  exact mkEntry_side now cfg xS fmt idx item

theorem layoutCore_mem_src (now : ℚ) (cfg : Config) (xS : ℚ → ℚ) (fmt : ℚ → String)
    (sorted : List TimelineItem) :
    ∀ p ∈ layoutCore now cfg xS fmt sorted,
      ∃ q ∈ initialEntries now cfg xS fmt sorted, presIdX q p := by
  intro p hp
  unfold layoutCore at hp
  dsimp only at hp
  split at hp
  · rcases List.mem_map.mp hp with ⟨p1, hp1, rfl⟩
    split at hp1
    · rcases List.mem_map.mp hp1 with ⟨p2, hp2, rfl⟩
      obtain ⟨q, hq, hqp⟩ := entriesBySide_mem_src cfg.contentScale _ p2 hp2
      exact ⟨q, hq, presIdX_trans (presIdX_trans hqp (applyShift_pres _ _ p2))
        (rebindMarker_presIdX _ _)⟩
    · obtain ⟨q, hq, hqp⟩ := entriesBySide_mem_src cfg.contentScale _ p1 hp1
      exact ⟨q, hq, presIdX_trans hqp (rebindMarker_presIdX _ _)⟩
  · split at hp
    · rcases List.mem_map.mp hp with ⟨p1, hp1, rfl⟩
      obtain ⟨q, hq, hqp⟩ := entriesBySide_mem_src cfg.contentScale _ p1 hp1
      exact ⟨q, hq, presIdX_trans hqp (applyShift_pres _ _ p1)⟩
    · obtain ⟨q, hq, hqp⟩ := entriesBySide_mem_src cfg.contentScale _ p hp
      exact ⟨q, hq, hqp⟩

theorem layoutCore_mem_exists (now : ℚ) (cfg : Config) (xS : ℚ → ℚ) (fmt : ℚ → String)
    (sorted : List TimelineItem) :
    ∀ q ∈ initialEntries now cfg xS fmt sorted,
      ∃ p ∈ layoutCore now cfg xS fmt sorted, presIdX q p := by
  intro q hq
  obtain ⟨p1, hp1, hqp1⟩ := entriesBySide_mem_exists cfg.contentScale _
    (initialEntries_side now cfg xS fmt sorted) q hq
  unfold layoutCore
  dsimp only
  split
  · split
    · refine ⟨rebindMarker cfg.canvasWidth
        (applyShift cfg.contentScale _ p1), List.mem_map_of_mem _ (List.mem_map_of_mem _ hp1), ?_⟩
      exact presIdX_trans (presIdX_trans hqp1 (applyShift_pres _ _ p1))
        (rebindMarker_presIdX _ _)
    · exact ⟨rebindMarker cfg.canvasWidth p1, List.mem_map_of_mem _ hp1,
        presIdX_trans hqp1 (rebindMarker_presIdX _ _)⟩
  · split
    · exact ⟨applyShift cfg.contentScale _ p1, List.mem_map_of_mem _ hp1,
        presIdX_trans hqp1 (applyShift_pres _ _ p1)⟩
    · exact ⟨p1, hp1, hqp1⟩

theorem layoutEntries_mem_exists (now : ℚ) (cfg : Config) (items : List TimelineItem) :
    ∀ item ∈ items, ∃ e, (TimelineItem.idOf item, e) ∈ layoutEntries now cfg items := by
  intro item hitem
  have hsorted : item ∈ sortByKey (getItemDate now) items :=
    (sortByKey_perm (getItemDate now) items).mem_iff.mpr hitem
  rcases List.mem_iff_get.mp hsorted with ⟨⟨i, hi⟩, hget⟩
  have hlen2 : i < ((sortByKey (getItemDate now) items).enum).length := by
    simpa [List.enum_length] using hi
  have hgetElem : (sortByKey (getItemDate now) items)[i] = item := by
    rw [← hget]
    simp [List.get_eq_getElem]
  have henum : (i, item) ∈ (sortByKey (getItemDate now) items).enum := by
    have h2 := List.getElem_enum (sortByKey (getItemDate now) items) i
    have h3 := h2 hlen2
    rw [hgetElem] at h3
    rw [← h3]
    exact List.getElem_mem _
  have hq : mkEntry now cfg (xScaleOf now cfg items) (fmtOf now cfg items) i item ∈
      initialEntries now cfg (xScaleOf now cfg items) (fmtOf now cfg items)
        (sortByKey (getItemDate now) items) :=
    List.mem_map.mpr ⟨(i, item), henum, rfl⟩
  obtain ⟨p, hp, hqp⟩ := layoutCore_mem_exists now cfg _ _ _ _ hq
  refine ⟨p.2, ?_⟩
  have hid : p.1 = TimelineItem.idOf item := by
    rw [← hqp.1, mkEntry_fst]
  have hpeq : p = (TimelineItem.idOf item, p.2) := by
    rw [← hid]
  rw [← hpeq]
  exact hp

theorem layoutEntries_mem_src (now : ℚ) (cfg : Config) (items : List TimelineItem) :
    ∀ p ∈ layoutEntries now cfg items, ∃ idx item, item ∈ items ∧
      p.1 = TimelineItem.idOf item ∧
      presIdX (mkEntry now cfg (xScaleOf now cfg items) (fmtOf now cfg items) idx item) p := by
  intro p hp
  obtain ⟨q, hq, hqp⟩ := layoutCore_mem_src now cfg _ _ _ p hp
  rcases List.mem_map.mp hq with ⟨⟨idx, item⟩, hmem, rfl⟩
  have hget := (List.mem_enumFrom hmem).2.2
  have himem : item ∈ sortByKey (getItemDate now) items := by
    rw [hget]
    exact List.getElem_mem _
  refine ⟨idx, item, (sortByKey_perm (getItemDate now) items).mem_iff.mp himem, ?_, hqp⟩
  rw [← hqp.1, mkEntry_fst]


/-! ## Claims C9, C7, C10 -/

/-- C9. parseDate is total and fails soft: a parseable string yields its
instant and an unparseable one yields the current instant, and the layout
pass never drops an item — every item of the input list receives a layout
entry under its id, whatever its date fields. -/
theorem c9_parse_fail_soft (now : ℚ) (cfg : Config) (items : List TimelineItem) :
    (∀ t, parseDate now (some t) = t) ∧ parseDate now none = now ∧
    ∀ item ∈ items, ∃ e, (TimelineItem.idOf item, e) ∈ layoutEntries now cfg items :=
  ⟨fun _ => rfl, rfl, layoutEntries_mem_exists now cfg items⟩

/-- Witness for C9: a timeline whose event date and period dates are all
unparseable still produces a layout entry for every item. -/
theorem c9_parse_fail_soft_witness :
    (∃ e, (("x"), e) ∈ layoutEntries 0 ⟨1, false, 1, 1200, 800, false, false, false⟩
      [TimelineItem.event ("x") ("X") none, TimelineItem.period ("q") ("Q") none none]) ∧
    ∃ e, (("q"), e) ∈ layoutEntries 0 ⟨1, false, 1, 1200, 800, false, false, false⟩
      [TimelineItem.event ("x") ("X") none, TimelineItem.period ("q") ("Q") none none] :=
  ⟨(c9_parse_fail_soft 0 ⟨1, false, 1, 1200, 800, false, false, false⟩
      [TimelineItem.event ("x") ("X") none, TimelineItem.period ("q") ("Q") none none]).2.2
      (TimelineItem.event ("x") ("X") none) (by simp),
    (c9_parse_fail_soft 0 ⟨1, false, 1, 1200, 800, false, false, false⟩
      [TimelineItem.event ("x") ("X") none, TimelineItem.period ("q") ("Q") none none]).2.2
      (TimelineItem.period ("q") ("Q") none none) (by simp)⟩

/-- C7 (amended). A period whose end instant is strictly before its start
is laid out, without any error, as a bar of the minimum width,
MIN_PERIOD_WIDTH * contentScale = 60 * s pixels, positioned at the start
instant: x1 = scale(start) and x2 = x1 + 60 * s. The original claim said
the bar is clamped to zero width; the code clamps the width from below by
the 60-pixel minimum instead, so the bar is never zero-width (see the
counterexample). -/
theorem c7_invalid_period (now : ℚ) (cfg : Config) (items : List TimelineItem)
    (pid lbl : String) (st en : ℚ)
    (hmem : TimelineItem.period pid lbl (some st) (some en) ∈ items)
    (hnodup : (items.map TimelineItem.idOf).Nodup)
    (hlt : en < st) (hw : 0 ≤ cfg.canvasWidth) (hs : 0 ≤ cfg.contentScale) :
    (∃ e, (pid, e) ∈ layoutEntries now cfg items) ∧
    ∀ e, (pid, e) ∈ layoutEntries now cfg items →
      e.x1 = some (xScaleOf now cfg items st) ∧
      e.x2 = some (xScaleOf now cfg items st + minPeriodWidth * cfg.contentScale) := by
  constructor
  · exact layoutEntries_mem_exists now cfg items _ hmem
  · intro e he
    obtain ⟨idx, item, hitem, hid, hpres⟩ := layoutEntries_mem_src now cfg items (pid, e) he
    have hitem_eq : item = TimelineItem.period pid lbl (some st) (some en) := by
      exact List.inj_on_of_nodup_map hnodup hitem hmem hid.symm
    subst hitem_eq
    have hx1 : (mkEntry now cfg (xScaleOf now cfg items) (fmtOf now cfg items) idx
        (TimelineItem.period pid lbl (some st) (some en))).2.x1 =
        some (xScaleOf now cfg items st) := rfl
    have hx2raw : (mkEntry now cfg (xScaleOf now cfg items) (fmtOf now cfg items) idx
        (TimelineItem.period pid lbl (some st) (some en))).2.x2 =
        some (xScaleOf now cfg items st +
          max (xScaleOf now cfg items en - xScaleOf now cfg items st)
            (minPeriodWidth * cfg.contentScale)) := rfl
    have hmono := xScaleOf_mono now cfg items en st (List.ne_nil_of_mem hmem) hw
      (le_of_lt hlt)
    have hmax : max (xScaleOf now cfg items en - xScaleOf now cfg items st)
        (minPeriodWidth * cfg.contentScale) = minPeriodWidth * cfg.contentScale := by
      apply max_eq_right
      have h60 : 0 ≤ minPeriodWidth * cfg.contentScale :=
        mul_nonneg (by norm_num [minPeriodWidth]) hs
      linarith
    constructor
    · rw [← hpres.2.1, hx1]
    · rw [← hpres.2.2, hx2raw, hmax]

/-- Counterexample to C7 as stated: a period from Jun 7, 2025 back to
Jun 6, 2025 (end strictly before start) is laid out as a bar from pixel
1000 to pixel 1060 — width 60, the scaled minimum period width, not zero
width. -/
theorem c7_counterexample :
    layoutEntries 0 ⟨1, false, 1, 1200, 800, false, false, false⟩
        [TimelineItem.period ("p") ("P") (some 1749276000000) (some 1749200000000)] =
      [(("p"), ⟨-1, 0, 1030, 1030, 159/2, 36, 40, some 1000, some 1060⟩)] ∧
    (1060 : ℚ) - 1000 = 60 ∧ ((60 : ℚ) ≠ 0) := by
  refine ⟨?_, by norm_num, by norm_num⟩
  have fA : formatDate 1749276000000 = ("Jun 7, 2025") := by
    norm_num [formatDate, civilOf, daysFromMs]
    decide
  have fB : formatDate 1749200000000 = ("Jun 6, 2025") := by
    norm_num [formatDate, civilOf, daysFromMs]
    decide
  norm_num [layoutEntries, layoutCore, initialEntries, mkEntry, sortByKey, insSorted,
    getItemDate, parseDate, xScaleOf, getMinMaxDates, itemMinMaxDates, actualWidth,
    linearScale, fmtOf, estimateTextWidth, entriesBySide, sweepSide, sweepGo,
    resolveAgainst, resolveStep, applyShift, shiftStep, rebindMarker, minPeriodWidth,
    snap, List.enum, List.enumFrom, fA, fB,
    (show ("Jun 7, 2025").length = 11 from rfl),
    (show ("Jun 6, 2025").length = 11 from rfl),
    (show (" - ").length = 3 from rfl),
    (show ("P").length = 1 from rfl)]

/-- Witness for C7: the amended theorem applied to the concrete
backwards period. -/
theorem c7_invalid_period_witness :
    (∃ e, (("p"), e) ∈ layoutEntries 0 ⟨1, false, 1, 1200, 800, false, false, false⟩
      [TimelineItem.period ("p") ("P") (some 1749276000000) (some 1749200000000)]) ∧
    ∀ e, (("p"), e) ∈ layoutEntries 0 ⟨1, false, 1, 1200, 800, false, false, false⟩
        [TimelineItem.period ("p") ("P") (some 1749276000000) (some 1749200000000)] →
      e.x1 = some (xScaleOf 0 ⟨1, false, 1, 1200, 800, false, false, false⟩
        [TimelineItem.period ("p") ("P") (some 1749276000000) (some 1749200000000)]
        1749276000000) ∧
      e.x2 = some (xScaleOf 0 ⟨1, false, 1, 1200, 800, false, false, false⟩
        [TimelineItem.period ("p") ("P") (some 1749276000000) (some 1749200000000)]
        1749276000000 + minPeriodWidth * 1) :=
  c7_invalid_period 0 ⟨1, false, 1, 1200, 800, false, false, false⟩
    [TimelineItem.period ("p") ("P") (some 1749276000000) (some 1749200000000)]
    ("p") ("P") 1749276000000 1749200000000 (by simp)
    (by simp [TimelineItem.idOf]) (by norm_num) (by norm_num) (by norm_num)

/-- C10. Every period's laid-out bar is at least
MIN_PERIOD_WIDTH * contentScale = 60 * s pixels wide regardless of its
temporal span, because the layout sets x2 = x1 + max(x2raw - x1, 60 * s);
a zero-duration period (start equal to end) gets a bar of exactly the
minimum width starting at its start position. -/
theorem c10_min_period_width (now : ℚ) (cfg : Config) (items : List TimelineItem)
    (pid lbl : String) (sd ed : Option ℚ)
    (hmem : TimelineItem.period pid lbl sd ed ∈ items)
    (hnodup : (items.map TimelineItem.idOf).Nodup) (hs : 0 ≤ cfg.contentScale) :
    (∃ e, (pid, e) ∈ layoutEntries now cfg items) ∧
    ∀ e, (pid, e) ∈ layoutEntries now cfg items →
      ∃ x1v x2v, e.x1 = some x1v ∧ e.x2 = some x2v ∧
        minPeriodWidth * cfg.contentScale ≤ x2v - x1v ∧
        x1v = xScaleOf now cfg items (parseDate now sd) ∧
        (sd = ed → x2v - x1v = minPeriodWidth * cfg.contentScale) := by
  constructor
  · exact layoutEntries_mem_exists now cfg items _ hmem
  · intro e he
    obtain ⟨idx, item, hitem, hid, hpres⟩ := layoutEntries_mem_src now cfg items (pid, e) he
    have hitem_eq : item = TimelineItem.period pid lbl sd ed := by
      exact List.inj_on_of_nodup_map hnodup hitem hmem hid.symm
    subst hitem_eq
    have hx1 : (mkEntry now cfg (xScaleOf now cfg items) (fmtOf now cfg items) idx
        (TimelineItem.period pid lbl sd ed)).2.x1 =
        some (xScaleOf now cfg items (parseDate now sd)) := rfl
    have hx2 : (mkEntry now cfg (xScaleOf now cfg items) (fmtOf now cfg items) idx
        (TimelineItem.period pid lbl sd ed)).2.x2 =
        some (xScaleOf now cfg items (parseDate now sd) +
          max (xScaleOf now cfg items (parseDate now ed) -
              xScaleOf now cfg items (parseDate now sd))
            (minPeriodWidth * cfg.contentScale)) := rfl
    refine ⟨xScaleOf now cfg items (parseDate now sd),
      xScaleOf now cfg items (parseDate now sd) +
        max (xScaleOf now cfg items (parseDate now ed) -
            xScaleOf now cfg items (parseDate now sd))
          (minPeriodWidth * cfg.contentScale), ?_, ?_, ?_, rfl, ?_⟩
    · rw [← hpres.2.1, hx1]
    · rw [← hpres.2.2, hx2]
    · have := le_max_right (xScaleOf now cfg items (parseDate now ed) -
        xScaleOf now cfg items (parseDate now sd)) (minPeriodWidth * cfg.contentScale)
      linarith
    · intro hsded
      subst hsded
      have hz : xScaleOf now cfg items (parseDate now sd) -
          xScaleOf now cfg items (parseDate now sd) = 0 := by ring
      rw [hz, max_eq_right (mul_nonneg (by norm_num [minPeriodWidth]) hs)]
      ring

/-- Witness for C10: a zero-duration period gets a bar of exactly the
minimum width at its start position. -/
theorem c10_min_period_width_witness :
    (∃ e, (("z"), e) ∈ layoutEntries 0 ⟨1, false, 1, 1200, 800, false, false, false⟩
      [TimelineItem.period ("z") ("Z") (some 5) (some 5)]) ∧
    ∀ e, (("z"), e) ∈ layoutEntries 0 ⟨1, false, 1, 1200, 800, false, false, false⟩
        [TimelineItem.period ("z") ("Z") (some 5) (some 5)] →
      ∃ x1v x2v, e.x1 = some x1v ∧ e.x2 = some x2v ∧
        minPeriodWidth * 1 ≤ x2v - x1v ∧
        x1v = xScaleOf 0 ⟨1, false, 1, 1200, 800, false, false, false⟩
          [TimelineItem.period ("z") ("Z") (some 5) (some 5)] (parseDate 0 (some 5)) ∧
        ((some 5 : Option ℚ) = some 5 → x2v - x1v = minPeriodWidth * 1) :=
  c10_min_period_width 0 ⟨1, false, 1, 1200, 800, false, false, false⟩
    [TimelineItem.period ("z") ("Z") (some 5) (some 5)] ("z") ("Z") (some 5) (some 5)
    (by simp) (by simp [TimelineItem.idOf]) (by norm_num)


/-! ## Claim C3 -/

/-- C3. With at least two distinct collected timestamps, the compressed
scale sorts the distinct instants ascending, takes the upper-median of
the sorted consecutive gaps (the element at index floor(n / 2), an actual
gap, not an average), sets threshold = median * 3 (a positive value), and
in the cumulative-distance array every gap strictly above the threshold
contributes exactly the threshold while every other gap contributes
itself. -/
theorem c3_gap_compression (now minD maxD : ℚ) (items : List TimelineItem)
    (h2 : 2 ≤ (uniqueTs now minD maxD items).length) :
    List.Pairwise (· < ·) (uniqueTs now minD maxD items) ∧
    (sortByKey id (gapsOf (uniqueTs now minD maxD items))).getD
        ((sortByKey id (gapsOf (uniqueTs now minD maxD items))).length / 2) 0 ∈
      gapsOf (uniqueTs now minD maxD items) ∧
    thresholdOf (gapsOf (uniqueTs now minD maxD items)) =
      (sortByKey id (gapsOf (uniqueTs now minD maxD items))).getD
        ((sortByKey id (gapsOf (uniqueTs now minD maxD items))).length / 2) 0 * 3 ∧
    0 < thresholdOf (gapsOf (uniqueTs now minD maxD items)) ∧
    ∀ i < (gapsOf (uniqueTs now minD maxD items)).length,
      (compressedOf (thresholdOf (gapsOf (uniqueTs now minD maxD items)))
            (gapsOf (uniqueTs now minD maxD items))).getD (i + 1) 0 -
        (compressedOf (thresholdOf (gapsOf (uniqueTs now minD maxD items)))
            (gapsOf (uniqueTs now minD maxD items))).getD i 0 =
        if thresholdOf (gapsOf (uniqueTs now minD maxD items)) <
            (gapsOf (uniqueTs now minD maxD items)).getD i 0
        then thresholdOf (gapsOf (uniqueTs now minD maxD items))
        else (gapsOf (uniqueTs now minD maxD items)).getD i 0 := by
  have hu := uniqueTs_sorted now minD maxD items
  set u := uniqueTs now minD maxD items with hudef
  have hgpos := gapsOf_pos u hu
  have hglen : (gapsOf u).length = u.length - 1 := gapsOf_length u
  have hsglen : (sortByKey id (gapsOf u)).length = (gapsOf u).length :=
    (sortByKey_perm id (gapsOf u)).length_eq
  have hidx : (sortByKey id (gapsOf u)).length / 2 < (sortByKey id (gapsOf u)).length := by
    omega
  have hmed : (sortByKey id (gapsOf u)).getD ((sortByKey id (gapsOf u)).length / 2) 0 ∈
      gapsOf u :=
    (sortByKey_perm id (gapsOf u)).mem_iff.mp (getD_mem _ _ hidx)
  have hth : 0 < thresholdOf (gapsOf u) := thresholdOf_pos u hu h2
  refine ⟨hu, hmed, rfl, hth, ?_⟩
  intro i hi
  have hd : (compressedOf (thresholdOf (gapsOf u)) (gapsOf u)).getD (i + 1) 0 -
      (compressedOf (thresholdOf (gapsOf u)) (gapsOf u)).getD i 0 =
      (increments (thresholdOf (gapsOf u)) (gapsOf u)).getD i 0 := by
    unfold compressedOf
    exact sumsFrom_diff 0 _ i (by rw [increments_length]; exact hi)
  rw [hd, increments_getD _ _ i hi]
  by_cases hc : thresholdOf (gapsOf u) < (gapsOf u).getD i 0
  · rw [if_pos ⟨hth, hc⟩, if_pos hc]
  · rw [if_neg (fun hand => hc hand.2), if_neg hc]

/-- The distinct sorted timestamps of the C3 witness instance: domain 0
to 103 with events at instants 1, 2 and 3, giving gaps [1, 1, 1, 100]. -/
theorem c3_unique_eval :
    uniqueTs 0 0 103 [TimelineItem.event ("a") ("A") (some 1),
      TimelineItem.event ("b") ("B") (some 2), TimelineItem.event ("c") ("C") (some 3)] =
      [0, 1, 2, 3, 103] := by
  norm_num [uniqueTs, scaleTimestamps, datesOf, itemDates, parseDate, sortByKey,
    insSorted, List.dedup, List.pwFilter]

/-- Witness for C3: at the concrete instance the gaps are [1, 1, 1, 100],
the upper-median is 1, the threshold is 3, and the cumulative compressed
distances are [0, 1, 2, 3, 6]: the size-100 gap contributes exactly 3. -/
theorem c3_gap_compression_witness :
    gapsOf [0, 1, 2, 3, 103] = [1, 1, 1, 100] ∧
    thresholdOf [1, 1, 1, 100] = 3 ∧
    compressedOf 3 [1, 1, 1, 100] = [0, 1, 2, 3, 6] ∧
    ((6 : ℚ) - 3 = 3) ∧
    (List.Pairwise (· < ·) (uniqueTs 0 0 103 [TimelineItem.event ("a") ("A") (some 1),
        TimelineItem.event ("b") ("B") (some 2),
        TimelineItem.event ("c") ("C") (some 3)]) ∧
      (sortByKey id (gapsOf (uniqueTs 0 0 103 [TimelineItem.event ("a") ("A") (some 1),
          TimelineItem.event ("b") ("B") (some 2),
          TimelineItem.event ("c") ("C") (some 3)]))).getD
          ((sortByKey id (gapsOf (uniqueTs 0 0 103
            [TimelineItem.event ("a") ("A") (some 1),
             TimelineItem.event ("b") ("B") (some 2),
             TimelineItem.event ("c") ("C") (some 3)]))).length / 2) 0 ∈
        gapsOf (uniqueTs 0 0 103 [TimelineItem.event ("a") ("A") (some 1),
          TimelineItem.event ("b") ("B") (some 2),
          TimelineItem.event ("c") ("C") (some 3)]) ∧
      thresholdOf (gapsOf (uniqueTs 0 0 103 [TimelineItem.event ("a") ("A") (some 1),
          TimelineItem.event ("b") ("B") (some 2),
          TimelineItem.event ("c") ("C") (some 3)])) =
        (sortByKey id (gapsOf (uniqueTs 0 0 103
          [TimelineItem.event ("a") ("A") (some 1),
           TimelineItem.event ("b") ("B") (some 2),
           TimelineItem.event ("c") ("C") (some 3)]))).getD
          ((sortByKey id (gapsOf (uniqueTs 0 0 103
            [TimelineItem.event ("a") ("A") (some 1),
             TimelineItem.event ("b") ("B") (some 2),
             TimelineItem.event ("c") ("C") (some 3)]))).length / 2) 0 * 3 ∧
      0 < thresholdOf (gapsOf (uniqueTs 0 0 103
        [TimelineItem.event ("a") ("A") (some 1),
         TimelineItem.event ("b") ("B") (some 2),
         TimelineItem.event ("c") ("C") (some 3)])) ∧
      ∀ i < (gapsOf (uniqueTs 0 0 103 [TimelineItem.event ("a") ("A") (some 1),
          TimelineItem.event ("b") ("B") (some 2),
          TimelineItem.event ("c") ("C") (some 3)])).length,
        (compressedOf (thresholdOf (gapsOf (uniqueTs 0 0 103
              [TimelineItem.event ("a") ("A") (some 1),
               TimelineItem.event ("b") ("B") (some 2),
               TimelineItem.event ("c") ("C") (some 3)])))
              (gapsOf (uniqueTs 0 0 103 [TimelineItem.event ("a") ("A") (some 1),
                TimelineItem.event ("b") ("B") (some 2),
                TimelineItem.event ("c") ("C") (some 3)]))).getD (i + 1) 0 -
          (compressedOf (thresholdOf (gapsOf (uniqueTs 0 0 103
              [TimelineItem.event ("a") ("A") (some 1),
               TimelineItem.event ("b") ("B") (some 2),
               TimelineItem.event ("c") ("C") (some 3)])))
              (gapsOf (uniqueTs 0 0 103 [TimelineItem.event ("a") ("A") (some 1),
                TimelineItem.event ("b") ("B") (some 2),
                TimelineItem.event ("c") ("C") (some 3)]))).getD i 0 =
          if thresholdOf (gapsOf (uniqueTs 0 0 103
              [TimelineItem.event ("a") ("A") (some 1),
               TimelineItem.event ("b") ("B") (some 2),
               TimelineItem.event ("c") ("C") (some 3)])) <
              (gapsOf (uniqueTs 0 0 103 [TimelineItem.event ("a") ("A") (some 1),
                TimelineItem.event ("b") ("B") (some 2),
                TimelineItem.event ("c") ("C") (some 3)])).getD i 0
          then thresholdOf (gapsOf (uniqueTs 0 0 103
            [TimelineItem.event ("a") ("A") (some 1),
             TimelineItem.event ("b") ("B") (some 2),
             TimelineItem.event ("c") ("C") (some 3)]))
          else (gapsOf (uniqueTs 0 0 103 [TimelineItem.event ("a") ("A") (some 1),
            TimelineItem.event ("b") ("B") (some 2),
            TimelineItem.event ("c") ("C") (some 3)])).getD i 0) :=
  ⟨by norm_num [gapsOf], by norm_num [thresholdOf, sortByKey, insSorted],
    by norm_num [compressedOf, increments, sumsFrom], by norm_num,
    c3_gap_compression 0 0 103 _ (by rw [c3_unique_eval]; norm_num)⟩

/-! ## Claim C6 -/

/-- C6 (code bug). The claim describes rangeOf as using all event/note
instants; getMinMaxDates tests only item.type === 'event', so a note
falls into the period branch, its absent startDate/endDate parse to the
current instant, and its actual date is ignored. At the failing input — a
single note dated at instant 0 evaluated at current instant 1000000000 —
the code returns the 30-day pad around the current instant while the
spec-modelled range pads around instant 0; the two disagree. -/
theorem c6_note_range_bug :
    getMinMaxDates 1000000000 [TimelineItem.note ("n1") ("N") (some 0)] =
      (1000000000 - 2592000000, 1000000000 + 2592000000) ∧
    rangeOfSpec 1000000000 [TimelineItem.note ("n1") ("N") (some 0)] =
      (0 - 2592000000, 0 + 2592000000) ∧
    getMinMaxDates 1000000000 [TimelineItem.note ("n1") ("N") (some 0)] ≠
      rangeOfSpec 1000000000 [TimelineItem.note ("n1") ("N") (some 0)] := by
  refine ⟨?_, ?_, ?_⟩
  · norm_num [getMinMaxDates, itemMinMaxDates, parseDate]
  · norm_num [rangeOfSpec, datesOf, itemDates, parseDate]
  · norm_num [getMinMaxDates, rangeOfSpec, datesOf, itemDates, itemMinMaxDates, parseDate,
      Prod.ext_iff]


/-! ## Claim C8 -/

/-- C8. With at least one collected date, detectDateSpan returns mode
time exactly when all collected instants (event/note instants and period
starts and ends) share one calendar day, and then its context label is
the long weekday followed by the shared full date (so it contains the
full date); mode monthday exactly when all instants share one calendar
year but not one day, with the shared year as label; and mode full
exactly when they do not share a year, with an empty label. In time mode
the per-item formatter produces only the time-of-day string. -/
theorem c8_compact_dates (now : ℚ) (items : List TimelineItem)
    (hne : datesOf now items ≠ []) :
    ((detectDateSpan now items).mode = SpanMode.time ↔
      ∃ c, ∀ d ∈ datesOf now items, civilOf d = c) ∧
    ((detectDateSpan now items).mode = SpanMode.time →
      (detectDateSpan now items).label =
        weekdayLong (daysFromMs ((datesOf now items).headD 0)) ++ (", ") ++
          formatDate ((datesOf now items).headD 0)) ∧
    ((detectDateSpan now items).mode = SpanMode.monthday ↔
      (∃ y, ∀ d ∈ datesOf now items, getFullYear d = y) ∧
        ¬ ∃ c, ∀ d ∈ datesOf now items, civilOf d = c) ∧
    ((detectDateSpan now items).mode = SpanMode.monthday →
      (detectDateSpan now items).label =
        toString (getFullYear ((datesOf now items).headD 0))) ∧
    ((detectDateSpan now items).mode = SpanMode.full ↔
      ¬ ∃ y, ∀ d ∈ datesOf now items, getFullYear d = y) ∧
    ((detectDateSpan now items).mode = SpanMode.full →
      (detectDateSpan now items).label = ("")) ∧
    (∀ t, formatCompact t SpanMode.time = formatTimeOfDay t) := by
  have hd0mem : (datesOf now items).headD 0 ∈ datesOf now items := by
    rcases List.exists_cons_of_ne_nil hne with ⟨x, xs, hxe⟩
    rw [hxe]
    simp
  have hday : ((datesOf now items).all
        (fun d => decide (civilOf d = civilOf ((datesOf now items).headD 0))) = true) ↔
      (∃ c, ∀ d ∈ datesOf now items, civilOf d = c) := by
    rw [List.all_eq_true]
    constructor
    · intro h
      exact ⟨civilOf ((datesOf now items).headD 0),
        fun d hd => of_decide_eq_true (h d hd)⟩
    · rintro ⟨c, hc⟩
      intro d hd
      apply decide_eq_true
      rw [hc d hd, hc _ hd0mem]
  have hyear : ((datesOf now items).all
        (fun d => decide (getFullYear d = getFullYear ((datesOf now items).headD 0))) = true) ↔
      (∃ y, ∀ d ∈ datesOf now items, getFullYear d = y) := by
    rw [List.all_eq_true]
    constructor
    · intro h
      exact ⟨getFullYear ((datesOf now items).headD 0),
        fun d hd => of_decide_eq_true (h d hd)⟩
    · rintro ⟨y, hy⟩
      intro d hd
      apply decide_eq_true
      rw [hy d hd, hy _ hd0mem]
  have hdayyear : (∃ c, ∀ d ∈ datesOf now items, civilOf d = c) →
      (∃ y, ∀ d ∈ datesOf now items, getFullYear d = y) := by
    rintro ⟨c, hc⟩
    exact ⟨c.1, fun d hd => by unfold getFullYear; rw [hc d hd]⟩
  unfold detectDateSpan
  dsimp only
  rw [if_neg hne]
  by_cases hb1 : (datesOf now items).all
      (fun d => decide (civilOf d = civilOf ((datesOf now items).headD 0))) = true
  · rw [if_pos hb1]
    refine ⟨by simp [hday.mp hb1], fun _ => rfl, ?_, by simp, ?_, by simp, fun t => rfl⟩
    · simp only [show (SpanMode.time = SpanMode.monthday) = False from by simp]
      constructor
      · intro h
        exact absurd h (by simp)
      · rintro ⟨_, hnd⟩
        exact absurd (hday.mp hb1) hnd
    · constructor
      · intro h
        exact absurd h (by simp)
      · intro h
        exact absurd (hdayyear (hday.mp hb1)) h
  · rw [if_neg hb1]
    by_cases hb2 : (datesOf now items).all
        (fun d => decide (getFullYear d = getFullYear ((datesOf now items).headD 0))) = true
    · rw [if_pos hb2]
      refine ⟨?_, ?_, ?_, fun _ => rfl, ?_, ?_, fun t => rfl⟩
      · constructor
        · intro h
          exact absurd h (by simp)
        · intro h
          exact absurd (hday.mpr h) hb1
      · intro h
        exact absurd h (by simp)
      · simp only [show (SpanMode.monthday = SpanMode.monthday) = True from by simp]
        constructor
        · intro _
          exact ⟨hyear.mp hb2, fun h => hb1 (hday.mpr h)⟩
        · intro _
          trivial
      · constructor
        · intro h
          exact absurd h (by simp)
        · intro h
          exact absurd (hyear.mp hb2) h
      · intro h
        exact absurd h (by simp)
    · rw [if_neg hb2]
      refine ⟨?_, ?_, ?_, ?_, ?_, fun _ => rfl, fun t => rfl⟩
      · constructor
        · intro h
          exact absurd h (by simp)
        · intro h
          exact absurd (hday.mpr h) hb1
      · intro h
        exact absurd h (by simp)
      · constructor
        · intro h
          exact absurd h (by simp)
        · rintro ⟨hy, _⟩
          exact absurd (hyear.mpr hy) hb2
      · intro h
        exact absurd h (by simp)
      · constructor
        · intro _
          intro hy
          exact absurd (hyear.mpr hy) hb2
        · intro _
          rfl


/-- Witness for C8: three events on June 7, 2025 at 6:00, 9:00 and 13:37
UTC share one calendar day, so the detector picks time mode with the
context label Saturday, Jun 7, 2025, and the compact formatter renders
only times of day; the theorem instantiates at this input. -/
theorem c8_compact_dates_witness :
    datesOf 0
        [TimelineItem.event ("e1") ("A") (some 1749276000000),
         TimelineItem.event ("e2") ("B") (some 1749286800000),
         TimelineItem.event ("e3") ("C") (some 1749303420000)] ≠ [] ∧
    detectDateSpan 0
        [TimelineItem.event ("e1") ("A") (some 1749276000000),
         TimelineItem.event ("e2") ("B") (some 1749286800000),
         TimelineItem.event ("e3") ("C") (some 1749303420000)] =
      ⟨SpanMode.time, ("Saturday, Jun 7, 2025")⟩ ∧
    formatCompact 1749276000000 SpanMode.time = ("6:00 AM") ∧
    formatCompact 1749303420000 SpanMode.time = ("1:37 PM") ∧
    ((detectDateSpan 0
        [TimelineItem.event ("e1") ("A") (some 1749276000000),
         TimelineItem.event ("e2") ("B") (some 1749286800000),
         TimelineItem.event ("e3") ("C") (some 1749303420000)]).mode = SpanMode.time ↔
      ∃ c, ∀ d ∈ datesOf 0
        [TimelineItem.event ("e1") ("A") (some 1749276000000),
         TimelineItem.event ("e2") ("B") (some 1749286800000),
         TimelineItem.event ("e3") ("C") (some 1749303420000)], civilOf d = c) := by
  have hdates : datesOf 0
      [TimelineItem.event ("e1") ("A") (some 1749276000000),
       TimelineItem.event ("e2") ("B") (some 1749286800000),
       TimelineItem.event ("e3") ("C") (some 1749303420000)] =
      [1749276000000, 1749286800000, 1749303420000] := by
    norm_num [datesOf, itemDates, parseDate]
  have hne : datesOf 0
      [TimelineItem.event ("e1") ("A") (some 1749276000000),
       TimelineItem.event ("e2") ("B") (some 1749286800000),
       TimelineItem.event ("e3") ("C") (some 1749303420000)] ≠ [] := by
    rw [hdates]
    simp
  have hd1 : daysFromMs (1749276000000 : ℚ) = 20246 := by norm_num [daysFromMs]
  have hd2 : daysFromMs (1749286800000 : ℚ) = 20246 := by norm_num [daysFromMs]
  have hd3 : daysFromMs (1749303420000 : ℚ) = 20246 := by norm_num [daysFromMs]
  have hc1 : civilOf (1749276000000 : ℚ) = (2025, 6, 7) := by
    rw [civilOf, hd1]
    decide
  have hc2 : civilOf (1749286800000 : ℚ) = (2025, 6, 7) := by
    rw [civilOf, hd2]
    decide
  have hc3 : civilOf (1749303420000 : ℚ) = (2025, 6, 7) := by
    rw [civilOf, hd3]
    decide
  have hspan : detectDateSpan 0
      [TimelineItem.event ("e1") ("A") (some 1749276000000),
       TimelineItem.event ("e2") ("B") (some 1749286800000),
       TimelineItem.event ("e3") ("C") (some 1749303420000)] =
      ⟨SpanMode.time, ("Saturday, Jun 7, 2025")⟩ := by
    unfold detectDateSpan
    dsimp only
    rw [hdates]
    simp only [List.headD_cons, List.all_cons, List.all_nil, hc1, hc2, hc3, hd1]
    norm_num [weekdayLong, weekdayNames, formatDate, hc1, monthShort, monthNames]
    decide
  have hfc1 : formatCompact 1749276000000 SpanMode.time = ("6:00 AM") := by
    have hm : msOfDay (1749276000000 : ℚ) = 21600000 := by
      rw [msOfDay, hd1]
      norm_num
    norm_num [formatCompact, formatTimeOfDay, hm, pad2]
    decide
  have hfc3 : formatCompact 1749303420000 SpanMode.time = ("1:37 PM") := by
    have hm : msOfDay (1749303420000 : ℚ) = 49020000 := by
      rw [msOfDay, hd3]
      norm_num
    norm_num [formatCompact, formatTimeOfDay, hm, pad2]
    decide
  exact ⟨hne, hspan, hfc1, hfc3, (c8_compact_dates 0 _ hne).1⟩


/-! ## Claim C1: wall-clock independence of the layout -/

theorem parseDate_congr (now₁ now₂ : ℚ) {d : Option ℚ} (h : d ≠ none) :
    parseDate now₁ d = parseDate now₂ d := by
  cases d with
  | none => exact absurd rfl h
  | some t => rfl

theorem getItemDate_congr (now₁ now₂ : ℚ) {i : TimelineItem} (h : wallClockFree i) :
    getItemDate now₁ i = getItemDate now₂ i := by
  cases i with
  | event id label d => exact parseDate_congr now₁ now₂ h
  | note id label d => exact h.elim
  | period id label sd ed => exact parseDate_congr now₁ now₂ h.1

theorem itemDates_congr (now₁ now₂ : ℚ) {i : TimelineItem} (h : wallClockFree i) :
    itemDates now₁ i = itemDates now₂ i := by
  cases i with
  | event id label d => simp only [itemDates, parseDate_congr now₁ now₂ h]
  | note id label d => exact h.elim
  | period id label sd ed =>
    simp only [itemDates, parseDate_congr now₁ now₂ h.1, parseDate_congr now₁ now₂ h.2]

theorem itemMinMaxDates_congr (now₁ now₂ : ℚ) {i : TimelineItem} (h : wallClockFree i) :
    itemMinMaxDates now₁ i = itemMinMaxDates now₂ i := by
  cases i with
  | event id label d => simp only [itemMinMaxDates, parseDate_congr now₁ now₂ h]
  | note id label d => exact h.elim
  | period id label sd ed =>
    simp only [itemMinMaxDates, parseDate_congr now₁ now₂ h.1, parseDate_congr now₁ now₂ h.2]

theorem datesOf_congr (now₁ now₂ : ℚ) {items : List TimelineItem}
    (h : ∀ i ∈ items, wallClockFree i) : datesOf now₁ items = datesOf now₂ items := by
  induction items with
  | nil => rfl
  | cons a l ih =>
    simp only [datesOf, List.foldr_cons] at *
    rw [itemDates_congr now₁ now₂ (h a (by simp)), ih fun i hi => h i (by simp [hi])]

theorem minMaxFold_congr (now₁ now₂ : ℚ) {items : List TimelineItem}
    (h : ∀ i ∈ items, wallClockFree i) :
    items.foldr (fun i acc => itemMinMaxDates now₁ i ++ acc) [] =
      items.foldr (fun i acc => itemMinMaxDates now₂ i ++ acc) [] := by
  induction items with
  | nil => rfl
  | cons a l ih =>
    simp only [List.foldr_cons]
    rw [itemMinMaxDates_congr now₁ now₂ (h a (by simp)), ih fun i hi => h i (by simp [hi])]

theorem getMinMaxDates_congr (now₁ now₂ : ℚ) {items : List TimelineItem}
    (hne : items ≠ []) (h : ∀ i ∈ items, wallClockFree i) :
    getMinMaxDates now₁ items = getMinMaxDates now₂ items := by
  unfold getMinMaxDates
  rw [if_neg hne, if_neg hne]
  dsimp only
  rw [minMaxFold_congr now₁ now₂ h]

theorem uniqueTs_congr (now₁ now₂ a b : ℚ) {items : List TimelineItem}
    (h : ∀ i ∈ items, wallClockFree i) :
    uniqueTs now₁ a b items = uniqueTs now₂ a b items := by
  unfold uniqueTs scaleTimestamps
  rw [datesOf_congr now₁ now₂ h]

theorem buildCompressedScale_congr (now₁ now₂ : ℚ) {items : List TimelineItem}
    (h : ∀ i ∈ items, wallClockFree i) (a b c d t : ℚ) :
    buildCompressedScale now₁ items a b c d t = buildCompressedScale now₂ items a b c d t := by
  unfold buildCompressedScale
  dsimp only
  rw [uniqueTs_congr now₁ now₂ a b h]

theorem xScaleOf_congr (now₁ now₂ : ℚ) (cfg : Config) {items : List TimelineItem}
    (hne : items ≠ []) (h : ∀ i ∈ items, wallClockFree i) (t : ℚ) :
    xScaleOf now₁ cfg items t = xScaleOf now₂ cfg items t := by
  unfold xScaleOf
  dsimp only
  rw [getMinMaxDates_congr now₁ now₂ hne h]
  by_cases hc : cfg.compressGaps = true ∧ 2 ≤ items.length
  · rw [if_pos hc, if_pos hc]
    exact buildCompressedScale_congr now₁ now₂ h _ _ _ _ t
  · rw [if_neg hc, if_neg hc]

theorem detectDateSpan_congr (now₁ now₂ : ℚ) {items : List TimelineItem}
    (h : ∀ i ∈ items, wallClockFree i) :
    detectDateSpan now₁ items = detectDateSpan now₂ items := by
  unfold detectDateSpan
  dsimp only
  rw [datesOf_congr now₁ now₂ h]

theorem fmtOf_congr (now₁ now₂ : ℚ) (cfg : Config) {items : List TimelineItem}
    (h : ∀ i ∈ items, wallClockFree i) :
    fmtOf now₁ cfg items = fmtOf now₂ cfg items := by
  unfold fmtOf
  rw [detectDateSpan_congr now₁ now₂ h]

theorem mkEntry_congr (now₁ now₂ : ℚ) (cfg : Config) (xS : ℚ → ℚ) (fmt : ℚ → String)
    (idx : ℕ) {i : TimelineItem} (h : wallClockFree i) :
    mkEntry now₁ cfg xS fmt idx i = mkEntry now₂ cfg xS fmt idx i := by
  cases i with
  | event id label d =>
    simp only [mkEntry]
    rw [parseDate_congr now₁ now₂ h]
  | note id label d => exact h.elim
  | period id label sd ed =>
    simp only [mkEntry]
    rw [parseDate_congr now₁ now₂ h.1, parseDate_congr now₁ now₂ h.2]

theorem snd_mem_of_mem_enumFrom {p : ℕ × α} :
    ∀ {l : List α} {n : ℕ}, p ∈ l.enumFrom n → p.2 ∈ l
  | [], _, h => by simp [List.enumFrom] at h
  | a :: l, n, h => by
    simp only [List.enumFrom, List.mem_cons] at h
    rcases h with rfl | h
    · exact List.mem_cons_self _ _
    · exact List.mem_cons_of_mem _ (snd_mem_of_mem_enumFrom h)

theorem initialEntries_congr (now₁ now₂ : ℚ) (cfg : Config) (xS : ℚ → ℚ)
    (fmt : ℚ → String) {sorted : List TimelineItem}
    (h : ∀ i ∈ sorted, wallClockFree i) :
    initialEntries now₁ cfg xS fmt sorted = initialEntries now₂ cfg xS fmt sorted := by
  unfold initialEntries
  apply List.map_congr_left
  intro p hp
  exact mkEntry_congr now₁ now₂ cfg xS fmt p.1
    (h p.2 (snd_mem_of_mem_enumFrom (by simpa [List.enum] using hp)))

theorem layoutCore_congr (now₁ now₂ : ℚ) (cfg : Config) (xS : ℚ → ℚ) (fmt : ℚ → String)
    {sorted : List TimelineItem} (h : ∀ i ∈ sorted, wallClockFree i) :
    layoutCore now₁ cfg xS fmt sorted = layoutCore now₂ cfg xS fmt sorted := by
  unfold layoutCore
  dsimp only
  rw [initialEntries_congr now₁ now₂ cfg xS fmt h]

/-- C1 (corrected). The layout computation is a pure function of
(items, config) — and of the current wall-clock instant, which parseDate
substitutes for every unparseable date string and which getMinMaxDates
reads for every note (absent startDate/endDate) and for an empty list.
Determinism across independent invocations therefore holds exactly on
the wall-clock-free fragment: when every item is an event or period all
of whose date strings parse, the layout is the same at any two current
instants, so repeated invocations give identical entry maps. With an
unparseable date (or a note) the map changes with the clock, refuting
the unconditional claim. -/
theorem c1_determinism (now₁ now₂ : ℚ) (cfg : Config) (items : List TimelineItem)
    (h : ∀ i ∈ items, wallClockFree i) :
    layoutEntries now₁ cfg items = layoutEntries now₂ cfg items := by
  by_cases hne : items = []
  · subst hne
    simp [layoutEntries, layoutCore, initialEntries, sortByKey, entriesBySide, sweepSide,
      sweepGo, applyShift]
  · unfold layoutEntries
    rw [sortByKey_congr fun i hi => getItemDate_congr now₁ now₂ (h i hi),
      funext fun t => xScaleOf_congr now₁ now₂ cfg hne h t,
      fmtOf_congr now₁ now₂ cfg h]
    exact layoutCore_congr now₁ now₂ cfg _ _
      fun i hi => h i ((sortByKey_perm (getItemDate now₂) items).subset hi)

set_option maxHeartbeats 1000000 in
/-- Counterexample to C1 as stated: with an unparseable date string
(event b, date none) the layout consults the current instant. Two
invocations of the engine at instants 0 and 5184000000 on the same
(items, config) give different entry maps: at instant 0 both markers
land at x = 600, while at the later instant event a moves to 200 and
event b to 1000, because parseDate substitutes the current instant for
the bad date and the padded domain follows it. -/
theorem c1_counterexample :
    layoutEntries 0 ⟨1, false, 1, 1200, 800, false, false, false⟩
        [TimelineItem.event ("a") ("A") (some 0), TimelineItem.event ("b") ("B") none] ≠
      layoutEntries 5184000000 ⟨1, false, 1, 1200, 800, false, false, false⟩
        [TimelineItem.event ("a") ("A") (some 0), TimelineItem.event ("b") ("B") none] := by
  have f0 : formatDate 0 = ("Jan 1, 1970") := formatDate_day0 0 (by norm_num) (by norm_num)
  have hd60 : daysFromMs (5184000000 : ℚ) = 60 := by norm_num [daysFromMs]
  have hc60 : civilOf (5184000000 : ℚ) = (1970, 3, 2) := by
    rw [civilOf, hd60]
    decide
  have f60 : formatDate 5184000000 = ("Mar 2, 1970") := by
    norm_num [formatDate, hc60, monthShort, monthNames]
    decide
  have hmm1 : getMinMaxDates 0
      [TimelineItem.event ("a") ("A") (some 0), TimelineItem.event ("b") ("B") none] =
      (-2592000000, 2592000000) := by
    norm_num [getMinMaxDates, itemMinMaxDates, parseDate]
    exact fun h => absurd h (List.cons_ne_nil _ _)
  have hmm2 : getMinMaxDates 5184000000
      [TimelineItem.event ("a") ("A") (some 0), TimelineItem.event ("b") ("B") none] =
      (-518400000, 5702400000) := by
    norm_num [getMinMaxDates, itemMinMaxDates, parseDate]
    exact fun h => absurd h (List.cons_ne_nil _ _)
  have hx1 : ∀ t : ℚ, xScaleOf 0 ⟨1, false, 1, 1200, 800, false, false, false⟩
      [TimelineItem.event ("a") ("A") (some 0), TimelineItem.event ("b") ("B") none] t =
      600 + t * (1 / 5400000) := by
    intro t
    norm_num [xScaleOf, hmm1, actualWidth, linearScale]
    ring
  have hx2 : ∀ t : ℚ, xScaleOf 5184000000 ⟨1, false, 1, 1200, 800, false, false, false⟩
      [TimelineItem.event ("a") ("A") (some 0), TimelineItem.event ("b") ("B") none] t =
      200 + t * (1 / 6480000) := by
    intro t
    norm_num [xScaleOf, hmm2, actualWidth, linearScale]
    ring
  have e1 : layoutEntries 0 ⟨1, false, 1, 1200, 800, false, false, false⟩
      [TimelineItem.event ("a") ("A") (some 0), TimelineItem.event ("b") ("B") none] =
      [(("a"), ⟨-1, 0, 600, 600, 62, 110, 55, none, none⟩),
       (("b"), ⟨1, 0, 600, 600, 62, 110, 55, none, none⟩)] := by
    norm_num [layoutEntries, layoutCore, initialEntries, mkEntry, sortByKey, insSorted,
      getItemDate, parseDate, hx1, fmtOf, estimateTextWidth, entriesBySide,
      sweepSide, sweepGo, resolveAgainst, resolveStep, applyShift, shiftStep, rebindMarker,
      snap, List.enum, List.enumFrom, f0,
      (show ("Jan 1, 1970").length = 11 from rfl),
      (show ("A").length = 1 from rfl), (show ("B").length = 1 from rfl)]
  have e2 : layoutEntries 5184000000 ⟨1, false, 1, 1200, 800, false, false, false⟩
      [TimelineItem.event ("a") ("A") (some 0), TimelineItem.event ("b") ("B") none] =
      [(("a"), ⟨-1, 0, 200, 200, 62, 110, 55, none, none⟩),
       (("b"), ⟨1, 0, 1000, 1000, 62, 110, 55, none, none⟩)] := by
    norm_num [layoutEntries, layoutCore, initialEntries, mkEntry, sortByKey, insSorted,
      getItemDate, parseDate, hx2, fmtOf, estimateTextWidth, entriesBySide,
      sweepSide, sweepGo, resolveAgainst, resolveStep, applyShift, shiftStep, rebindMarker,
      snap, List.enum, List.enumFrom, f0, f60,
      (show ("Jan 1, 1970").length = 11 from rfl),
      (show ("Mar 2, 1970").length = 11 from rfl),
      (show ("A").length = 1 from rfl), (show ("B").length = 1 from rfl)]
  rw [e1, e2]
  norm_num [List.cons.injEq, Prod.mk.injEq, LayoutEntry.mk.injEq]

/-- Witness for C1: two events with parseable dates are wall-clock free,
and the theorem instantiated at instants 0 and 5184000000 gives equal
layouts. -/
theorem c1_determinism_witness :
    (∀ i ∈ [TimelineItem.event ("a") ("A") (some 0),
            TimelineItem.event ("b") ("B") (some 130)], wallClockFree i) ∧
    layoutEntries 0 ⟨1, false, 1, 1200, 800, false, false, false⟩
        [TimelineItem.event ("a") ("A") (some 0),
         TimelineItem.event ("b") ("B") (some 130)] =
      layoutEntries 5184000000 ⟨1, false, 1, 1200, 800, false, false, false⟩
        [TimelineItem.event ("a") ("A") (some 0),
         TimelineItem.event ("b") ("B") (some 130)] :=
  ⟨by simp [wallClockFree], c1_determinism 0 5184000000 _ _ (by simp [wallClockFree])⟩

end Duckline
